import Mathlib

/-!
Verification development for the dst-submittals-v2 core: tag resolution,
document classification, structure generation, customization merge, and
PDF assembly with bookmarks.

The Python sources are shallowly embedded as executable Lean functions.
Strings are processed as lists of characters; case folding is modelled on
the ASCII range (all inputs of interest are ASCII).  Python dicts that
preserve insertion order are modelled as association lists, and the
stable Python list sort is modelled by a stable insertion sort, which
produces the same result for the total-preorder keys used by the code.
Filesystem reads are modelled by explicit finite maps passed as
parameters.
-/

/-! ## ASCII character helpers -/
def isAsciiUpper (c : Char) : Bool := 'A' ≤ c && c ≤ 'Z'

def isAsciiLower (c : Char) : Bool := 'a' ≤ c && c ≤ 'z'

def isAsciiDigit (c : Char) : Bool := '0' ≤ c && c ≤ '9'

def isAsciiLetter (c : Char) : Bool := isAsciiUpper c || isAsciiLower c

/-- Character class [A-Z0-9] compiled with re.IGNORECASE: letters of either
case, or digits. -/
def isAlnumCI (c : Char) : Bool := isAsciiLetter c || isAsciiDigit c

/-- Python regex \s on the ASCII range: space, tab, newline, carriage
return, vertical tab, form feed. -/
def isPySpace (c : Char) : Bool :=
  c = ' ' || c = '\t' || c = '\n' || c = '\x0d' || c = '\x0b' || c = '\x0c'

def lowerChar (c : Char) : Char :=
  if isAsciiUpper c then Char.ofNat (c.toNat + 32) else c

def upperChar (c : Char) : Char :=
  if isAsciiLower c then Char.ofNat (c.toNat - 32) else c

def lowerStr (s : List Char) : List Char := s.map lowerChar

def upperStr (s : List Char) : List Char := s.map upperChar

/-- Case-insensitive startswith: str.upper().startswith(p) for an
uppercase literal p, or equivalently matching p case-insensitively at the
start. -/
def startsWithCI (p t : List Char) : Bool :=
  lowerStr (t.take p.length) = lowerStr p

/-- Python substring containment: needle in hay. -/
def containsSub (needle hay : List Char) : Bool :=
  hay.tails.any (fun t => needle.isPrefixOf t)

/-- Text after the first occurrence of needle, i.e. hay.split(needle, 1)[1]
when needle occurs. -/
def afterFirst (needle : List Char) : List Char → Option (List Char)
  | [] => if needle.isPrefixOf ([] : List Char) then some [] else none
  | c :: r =>
    if needle.isPrefixOf (c :: r) then some ((c :: r).drop needle.length)
    else afterFirst needle r

/-- Python str.strip(): remove leading and trailing whitespace. -/
def pyStrip (s : List Char) : List Char :=
  ((s.dropWhile isPySpace).reverse.dropWhile isPySpace).reverse

/-- Final path component, as os.path.basename / pathlib name. -/
def baseNameL (s : List Char) : List Char :=
  (s.foldl (fun acc c => if c = '/' then [] else c :: acc) []).reverse

/-- Index of the last occurrence of a character. -/
def lastIdxOf (ch : Char) (s : List Char) : Option Nat :=
  ((s.enum.filter (fun p => p.2 = ch)).getLast?).map (fun p => p.1)

/-- pathlib PurePath.stem: the final component without its suffix; the
suffix starts at the last dot when that dot is neither first nor last. -/
def pyStem (path : List Char) : List Char :=
  let nm := baseNameL path
  match lastIdxOf '.' nm with
  | some i => if 0 < i ∧ i < nm.length - 1 then nm.take i else nm
  | none => nm

/-- pathlib PurePath.suffix. -/
def pySuffix (path : List Char) : List Char :=
  let nm := baseNameL path
  match lastIdxOf '.' nm with
  | some i => if 0 < i ∧ i < nm.length - 1 then nm.drop i else []
  | none => []

/-- Index where os.path.splitext cuts the extension of a basename: the
last dot, provided some non-dot character precedes it. -/
def osExtIdx (nm : List Char) : Option Nat :=
  match lastIdxOf '.' nm with
  | some i => if (nm.take i).any (fun c => c ≠ '.') then some i else none
  | none => none

/-- os.path.splitext(name)[0] for a basename. -/
def osRoot (nm : List Char) : List Char :=
  match osExtIdx nm with
  | some i => nm.take i
  | none => nm

/-- os.path.splitext(name)[1] for a basename. -/
def osExt (nm : List Char) : List Char :=
  match osExtIdx nm with
  | some i => nm.drop i
  | none => []

/-! ## SimpleTagExtractor: equipment tag patterns

Each tag pattern has the shape PREFIX[-_][A-Z0-9]+ compiled with
re.IGNORECASE, applied with re.search (leftmost match).  The generic
catch-all is (?!CS)(^[A-Z]+[A-Z0-9]*[-_][A-Z0-9]+), anchored at the start
of the string.  Greedy matching of these patterns is deterministic: the
run before the separator is the maximal alphanumeric run, because any
shorter split would place the separator class on an alphanumeric
character. -/
def tagPrefixList : List (List Char) :=
  ["OAHU".data, "WSHP".data, "DOAS".data, "BCU".data, "AHU".data,
   "MAU".data, "RTU".data, "FCU".data, "HP".data, "FC".data, "BC".data,
   "CH".data]

/-- Match PREFIX[-_][A-Z0-9]+ exactly at the start of t, returning the
matched text (group 1). -/
def matchTagAt (pre t : List Char) : Option (List Char) :=
  if startsWithCI pre t then
    match t.drop pre.length with
    | c :: r =>
      if c = '-' ∨ c = '_' then
        let run := r.takeWhile isAlnumCI
        if run.isEmpty then none else some (t.take pre.length ++ c :: run)
      else none
    | [] => none
  else none

/-- re.search of PREFIX[-_][A-Z0-9]+: try each start position from the
left. -/
def searchTag (pre : List Char) : List Char → Option (List Char)
  | [] => none
  | c :: r =>
    match matchTagAt pre (c :: r) with
    | some m => some m
    | none => searchTag pre r

/-- The generic pattern (?!CS)(^[A-Z]+[A-Z0-9]*[-_][A-Z0-9]+), which due
to the anchor can only match at position 0. -/
def matchGenericTag (t : List Char) : Option (List Char) :=
  if startsWithCI "CS".data t then none
  else
    match t with
    | [] => none
    | c :: _ =>
      if isAsciiLetter c then
        let run1 := t.takeWhile isAlnumCI
        match t.drop run1.length with
        | s :: r2 =>
          if s = '-' ∨ s = '_' then
            let run2 := r2.takeWhile isAlnumCI
            if run2.isEmpty then none else some (run1 ++ s :: run2)
          else none
        | [] => none
      else none

/-- First tag pattern that matches, in the order the source lists them. -/
def firstTagMatch : List (List Char) → List Char → Option (List Char)
  | [], base => matchGenericTag base
  | p :: ps, base =>
    match searchTag p base with
    | some m => some m
    | none => firstTagMatch ps base

/-- SimpleTagExtractor.extract_tag_from_filename: stem the filename, skip
files whose stem starts with CS (any case), otherwise return the first
matching tag pattern uppercased. -/
def extract_tag_from_filename (filename : String) : Option String :=
  let base := pyStem filename.data
  if startsWithCI "CS".data base then none
  else (firstTagMatch tagPrefixList base).map (fun m => String.mk (upperStr m))

/-- The miniature pattern language of the classification regexes:
literals, one-or-more whitespace, any-characters (non-newline), and a
one-character class. -/
inductive RPat where
  | lit : List Char → RPat
  | wsPlus : RPat
  | anyStar : RPat
  | oneOf : List Char → RPat
deriving DecidableEq, Repr

/-- Residual texts reachable by consuming one or more whitespace
characters. -/
def wsDrops : List Char → List (List Char)
  | [] => []
  | c :: r => if isPySpace c then r :: wsDrops r else []

/-- Residual texts reachable by consuming one or more non-newline
characters. -/
def nnlDrops : List Char → List (List Char)
  | [] => []
  | c :: r => if c ≠ '\n' then r :: nnlDrops r else []

def runPats : List RPat → List (List Char) → Bool
  | [], ts => !ts.isEmpty
  | .lit l :: ps, ts =>
    runPats ps (ts.filterMap (fun t => if l.isPrefixOf t then some (t.drop l.length) else none))
  | .wsPlus :: ps, ts => runPats ps (ts.map wsDrops).flatten
  | .anyStar :: ps, ts => runPats ps (ts.map (fun t => t :: nnlDrops t)).flatten
  | .oneOf s :: ps, ts =>
    runPats ps (ts.filterMap (fun t =>
      match t with
      | [] => none
      | c :: r => if s.contains c then some r else none))

/-- re.search semantics: the pattern may start at any position. -/
def searchPat (ps : List RPat) (t : List Char) : Bool := runPats ps t.tails

/-- Anchored match (the ^cs[\s_-] pattern). -/
def matchPatStart (ps : List RPat) (t : List Char) : Bool := runPats ps [t]

/-- The doc_type_patterns table, in source order.  The Bool marks the
anchored pattern ^cs[\s_-]; everything else uses re.search.  Texts are
already lowercased, so IGNORECASE is realized by lowercase literals. -/
def docTypeTable : List (String × List (Bool × List RPat)) :=
  [("technical_data",
     [(false, [.lit "technical".data, .wsPlus, .lit "data".data]),
      (false, [.lit "tech".data, .wsPlus, .lit "data".data]),
      (false, [.lit "data".data, .wsPlus, .lit "sheet".data]),
      (false, [.lit "technical".data, .wsPlus, .lit "data".data, .wsPlus, .lit "sheet".data])]),
   ("item_summary",
     [(false, [.lit "item".data, .wsPlus, .lit "summary".data])]),
   ("fan_curve",
     [(false, [.lit "fan".data, .wsPlus, .lit "curve".data]),
      (false, [.lit "curve".data]),
      (false, [.lit "performance".data, .wsPlus, .lit "curve".data])]),
   ("drawing",
     [(false, [.lit "drawing".data]),
      (false, [.lit "drawings".data]),
      (false, [.lit "dwg".data]),
      (false, [.lit "cad".data]),
      (false, [.lit "preciseline".data, .wsPlus, .lit "drawings".data]),
      (false, [.lit "smartsource".data, .wsPlus, .lit "drawing".data])]),
   ("specification",
     [(false, [.lit "specification".data]),
      (false, [.lit "specifications".data]),
      (false, [.lit "spec".data]),
      (false, [.lit "specs".data])]),
   ("cutsheet",
     [(true, [.lit "cs".data, .oneOf (" \t\n\x0d\x0b\x0c_-".data)]),
      (false, [.lit "cut".data, .anyStar, .lit "sheet".data]),
      (false, [.lit "cutsheet".data])]),
   ("manual",
     [(false, [.lit "manual".data]),
      (false, [.lit "instruction".data]),
      (false, [.lit "operation".data]),
      (false, [.lit "maintenance".data])]),
   ("warranty",
     [(false, [.lit "warranty".data]),
      (false, [.lit "guarantee".data])])]

/-- The uppercase prefixes tested by the secure-format branch.  The
tested string has already been lowercased, so this test never succeeds;
it is embedded as written in the source. -/
def securePrefixList : List (List Char) :=
  ["AHU_".data, "MAU_".data, "RTU_".data, "FCU_".data, "WSHP_".data,
   "HP_".data, "FC_".data, "BC_".data, "BCU_".data, "DOAS_".data,
   "OAHU_".data, "CH_".data]

/-- Python s.split(sep, maxsplit) on a single-character separator. -/
def pySplitN (ch : Char) : Nat → List Char → List (List Char)
  | _, [] => [[]]
  | 0, s => [s]
  | maxs + 1, c :: r =>
    if c = ch then [] :: pySplitN ch maxs r
    else
      match pySplitN ch (maxs + 1) r with
      | [] => [[c]]
      | p :: ps => (c :: p) :: ps

/-- The lowercased stem the classifier works on. -/
def classifyBase (filename : String) : List Char := lowerStr (pyStem filename.data)

/-- The document-type part extracted from the stem: after " - ", after
"_-_" with underscores to spaces, after the second underscore of a
recognized secure-format prefix (a branch that never fires because the
prefixes are uppercase and the stem is lowercased), or the whole stem. -/
def classifyDocPart (base : List Char) : List Char :=
  if containsSub " - ".data base then (afterFirst " - ".data base).getD base
  else if containsSub "_-_".data base then
    ((afterFirst "_-_".data base).getD base).map (fun c => if c = '_' then ' ' else c)
  else if base.contains '_' && securePrefixList.any (fun p => p.isPrefixOf base) then
    (if 3 ≤ (pySplitN '_' 2 base).length then
      (((pySplitN '_' 2 base).drop 2).headD []).map (fun c => if c = '_' then ' ' else c)
    else base)
  else base

/-- The ordered keyword-pattern loop: first document type whose pattern
matches; cutsheet patterns are tested against the full stem, the others
against the document part. -/
def classifyKeyword (base docPart : List Char) : Option String :=
  docTypeTable.findSome? (fun entry =>
    let text := if entry.1 = "cutsheet" then base else docPart
    if entry.2.any (fun pr => if pr.1 then matchPatStart pr.2 text else searchPat pr.2 text)
    then some entry.1 else none)

/-- The extension-based default classification. -/
def classifyDefault (filename : String) : String :=
  let ext := lowerStr (pySuffix filename.data)
  if ext = ".jpg".data ∨ ext = ".jpeg".data ∨ ext = ".png".data ∨
     ext = ".gif".data ∨ ext = ".bmp".data then "drawing"
  else if ext = ".pdf".data ∨ ext = ".doc".data ∨ ext = ".docx".data then "technical_data"
  else if ext = ".xls".data ∨ ext = ".xlsx".data then "spreadsheet"
  else "other"

/-- SimpleTagExtractor.classify_document_type. -/
def classify_document_type (filename : String) : String :=
  match classifyKeyword (classifyBase filename) (classifyDocPart (classifyBase filename)) with
  | some t => t
  | none => classifyDefault filename

/-! ## Stable sorting

Python list.sort and sorted are stable.  For the total-preorder
comparators used by the code, any stable sort yields the same result, so
the embedding uses a structural stable insertion sort (each element is
inserted after all earlier elements the comparator does not place
strictly after it). -/
def insLe {α : Type} (le : α → α → Bool) (x : α) : List α → List α
  | [] => [x]
  | y :: ys => if le y x then y :: insLe le x ys else x :: y :: ys

def stableSort {α : Type} (le : α → α → Bool) (l : List α) : List α :=
  l.foldl (fun acc x => insLe le x acc) []

/-! ## SimpleTagExtractor: grouping and ordering -/
def supportedExtList : List (List Char) :=
  [".pdf".data, ".doc".data, ".docx".data, ".jpg".data, ".jpeg".data, ".png".data]

/-- SimpleTagExtractor.is_supported_file. -/
def is_supported_file (filename : String) : Bool :=
  supportedExtList.contains (lowerStr (pySuffix filename.data))

/-- Equipment groups: an insertion-ordered dict tag -> (insertion-ordered
dict doc_type -> file paths). -/
def EquipGroups : Type := List (String × List (String × List String))

instance : DecidableEq EquipGroups := by
  unfold EquipGroups
  infer_instance

/-- Append a path under groups[tag][docType], creating missing entries at
the end, as the Python dict updates do. -/
def addToGroups (groups : EquipGroups) (tag docType path : String) : EquipGroups :=
  match groups with
  | [] => [(tag, [(docType, [path])])]
  | (t, docs) :: rest =>
    if t = tag then
      (t, (match docs.lookup docType with
           | some _ => docs.map (fun e => if e.1 = docType then (e.1, e.2 ++ [path]) else e)
           | none => docs ++ [(docType, [path])])) :: rest
    else (t, docs) :: addToGroups rest tag docType path

/-- SimpleTagExtractor.extract_tags_from_files.  The filesystem existence
check is modelled by the exis oracle; untagged non-cutsheet files are
collected separately by the source and never enter the groups. -/
def extract_tags_from_files (paths : List String) (exis : String → Bool) : EquipGroups :=
  paths.foldl (fun groups path =>
    if !exis path then groups
    else
      let filename := String.mk (baseNameL path.data)
      if !is_supported_file filename then groups
      else
        let tag := extract_tag_from_filename filename
        let dt := classify_document_type filename
        match tag with
        | some t => addToGroups groups t dt path
        | none =>
          if dt = "cutsheet" then addToGroups groups "CUTSHEETS" dt path
          else groups) []

/-- Python int(s) on a tag suffix: digits only (the tags in scope carry no
sign); fails on anything else. -/
def pyParseNat (s : List Char) : Option Nat :=
  if s.isEmpty ∨ s.any (fun c => !isAsciiDigit c) then none
  else some (s.foldl (fun n c => n * 10 + (c.toNat - '0'.toNat)) 0)

/-- tag.split('-')[1] if '-' in tag else ''. -/
def dashSuffixOf (tag : String) : List Char :=
  if tag.data.contains '-' then ((pySplitN '-' tag.data.length tag.data).drop 1).headD []
  else []

def standardEquipPrefixList : List (List Char) :=
  ["RTU-".data, "FCU-".data, "WSHP-".data, "HP-".data, "FC-".data,
   "BC-".data, "BCU-".data, "DOAS-".data, "OAHU-".data, "CH-".data]

/-- SimpleTagExtractor.get_processing_order: MAU numeric first, then AHU
numeric, AHU alphanumeric, standard equipment, generic tags, CUTSHEETS
last. -/
def get_processing_order (groups : EquipGroups) : List String :=
  let keys := groups.map (fun g => g.1)
  let nonCS := keys.filter (fun t => t ≠ "CUTSHEETS")
  let mauNum := nonCS.filterMap (fun t =>
    if "MAU-".data.isPrefixOf t.data then (pyParseNat (dashSuffixOf t)).map (fun n => (n, t))
    else none)
  let ahuNum := nonCS.filterMap (fun t =>
    if "AHU-".data.isPrefixOf t.data then (pyParseNat (dashSuffixOf t)).map (fun n => (n, t))
    else none)
  let ahuAlpha := nonCS.filter (fun t =>
    "AHU-".data.isPrefixOf t.data && (pyParseNat (dashSuffixOf t)).isNone)
  let stdEquip := nonCS.filter (fun t =>
    !"MAU-".data.isPrefixOf t.data && !"AHU-".data.isPrefixOf t.data &&
    standardEquipPrefixList.any (fun p => p.isPrefixOf t.data))
  let generic := nonCS.filter (fun t =>
    (!"MAU-".data.isPrefixOf t.data ∨ (pyParseNat (dashSuffixOf t)).isNone) &&
    !"AHU-".data.isPrefixOf t.data &&
    !standardEquipPrefixList.any (fun p => p.isPrefixOf t.data))
  (stableSort (fun a b => decide (a.1 ≤ b.1)) mauNum).map (fun p => p.2) ++
  (stableSort (fun a b => decide (a.1 ≤ b.1)) ahuNum).map (fun p => p.2) ++
  stableSort (fun a b => decide (a ≤ b)) ahuAlpha ++
  stableSort (fun a b => decide (a ≤ b)) stdEquip ++
  stableSort (fun a b => decide (a ≤ b)) generic ++
  (if keys.contains "CUTSHEETS" then ["CUTSHEETS"] else [])

/-- SimpleTagExtractor.get_document_order_for_equipment. -/
def get_document_order_for_equipment (docTypes : List String) : List String :=
  let preferredOrder := ["technical_data", "fan_curve", "drawing", "item_summary",
                         "specification", "manual", "warranty", "other"]
  let ordered := preferredOrder.filter (fun dt => docTypes.contains dt)
  docTypes.foldl (fun acc dt => if acc.contains dt then acc else acc ++ [dt]) ordered

/-- re.sub(r'^\d+\s', '', s) removed once: maximal leading digit run
followed by a single whitespace character. -/
def stripNumSpace (s : List Char) : List Char :=
  let ds := s.takeWhile isAsciiDigit
  if ds.isEmpty then s
  else
    match s.drop ds.length with
    | c :: _ => if isPySpace c then s.drop (ds.length + 1) else s
    | [] => s

/-- re.sub(r'^\d+_', '', s). -/
def stripNumUnderscore (s : List Char) : List Char :=
  let ds := s.takeWhile isAsciiDigit
  if ds.isEmpty then s
  else
    match s.drop ds.length with
    | c :: _ => if c = '_' then s.drop (ds.length + 1) else s
    | [] => s

/-- enhanced_doc_extractor.classify_file_type. -/
def classify_file_type (filename : String) : String :=
  let fl := lowerStr filename.data
  let normalized := fl.map (fun c => if c = '_' ∨ c = '-' then ' ' else c)
  let clean := stripNumSpace normalized
  if containsSub "technical data sheet".data clean ∨ containsSub "tech data".data clean then
    "Technical Data Sheet"
  else if containsSub "fan curve".data clean then "Fan Curve"
  else if containsSub "drawing".data clean then "Drawing"
  else if containsSub "cut sheet".data clean ∨ startsWithCI "CS".data filename.data then
    "Cut Sheet"
  else if containsSub "item summary".data clean then "Item Summary"
  else "Other"

/-- Collapse every whitespace run to a single space: re.sub(r'\s+', ' ').
The fuel argument (initialized to the length of the text, which only
shrinks) keeps the recursion structural. -/
def collapseWsGo : Nat → List Char → List Char
  | 0, _ => []
  | _, [] => []
  | fuel + 1, c :: r =>
    if isPySpace c then ' ' :: collapseWsGo fuel (r.dropWhile isPySpace)
    else c :: collapseWsGo fuel r

def collapseWs (s : List Char) : List Char := collapseWsGo s.length s

/-- enhanced_doc_extractor.create_display_title. -/
def create_display_title (filename : String) : String :=
  let c0 := osRoot filename.data
  let c1 := stripNumUnderscore c0
  let c2 := c1.map (fun c => if c = '_' ∨ c = '-' then ' ' else c)
  let c3 := if startsWithCI "CS ".data c2 then c2.drop 3 else c2
  String.mk (pyStrip (collapseWs c3))

/-- enhanced_doc_extractor.get_file_order_priority. -/
def get_file_order_priority (ft : String) : Nat :=
  ((([("Technical Data Sheet", 1), ("Fan Curve", 2), ("Drawing", 3),
      ("Other", 4), ("Item Summary", 5)] : List (String × Nat)).lookup ft)).getD 4

/-- enhanced_doc_extractor.should_check_pricing_content. -/
def should_check_pricing_content (filename : String) (useFilenameTags : Bool) : Bool :=
  if !useFilenameTags then true
  else
    containsSub "item summary".data (lowerStr filename.data) ||
    containsSub "item_summary".data (lowerStr filename.data)

/-! ## enhanced_doc_extractor.has_pricing_content

The filesystem is modelled as a finite map from paths to file contents.
A docx file exposes its paragraph and table-cell texts; a doc file its
decoded byte text.  readOk models whether the content reads succeed
(the except branch of the source). -/
structure MFile where
  readOk : Bool := true
  paragraphs : List String := []
  cellTexts : List String := []
  rawText : String := ""
deriving DecidableEq, Repr

def fsFind (fs : List (String × MFile)) (path : String) : Option MFile :=
  (fs.find? (fun e => e.1 = path)).map (fun e => e.2)

def pricingKeywordList : List String :=
  ["item summary", "pricing", "cost", "price", "quote"]

def filenameSuggestsPricing (filename : String) : Bool :=
  pricingKeywordList.any (fun k => containsSub k.data (lowerStr filename.data))

/-- enhanced_doc_extractor.has_pricing_content. -/
def has_pricing_content (fs : List (String × MFile)) (path : String) : Bool :=
  match fsFind fs path with
  | none => false
  | some f =>
    let filename := String.mk (baseNameL path.data)
    let ext := lowerStr (osExt (baseNameL path.data))
    if ext = ".jpg".data ∨ ext = ".jpeg".data ∨ ext = ".png".data ∨
       ext = ".gif".data ∨ ext = ".bmp".data then
      filenameSuggestsPricing filename
    else if ext = ".docx".data then
      if !f.readOk then filenameSuggestsPricing filename
      else f.paragraphs.any (fun p => p.data.contains '$') ||
           f.cellTexts.any (fun cl => cl.data.contains '$')
    else if ext = ".doc".data then
      if !f.readOk then filenameSuggestsPricing filename
      else f.rawText.data.contains '$'
    else if ext = ".pdf".data then filenameSuggestsPricing filename
    else false

/-- One entry of the pdf_structure array.  Optional fields model dict
keys that are absent on some item kinds (title pages carry no filename,
cut sheets carry no pricing flag, and so on).  ptype and incl are the
JSON fields named type and include, renamed because both words are Lean
keywords; every generated item carries an include value, so incl is a
mandatory Bool. -/
structure PDFItem where
  ptype : String
  tag : String
  filename : Option String := none
  title : Option String := none
  display_title : Option String := none
  file_type : Option String := none
  converted_path : Option String := none
  position : Nat
  incl : Bool
  pricing_file : Option Bool := none
deriving DecidableEq, Repr

structure PDFMeta where
  total_tags : Nat := 0
  total_documents : Nat := 0
  total_cut_sheets : Nat := 0
  total_items : Nat := 0
  processing_complete : Bool := true
  pricing_filter_enabled : Bool := true
  last_updated : Option String := none
  user_customized : Bool := false
deriving DecidableEq, Repr

structure PDFData where
  pdf_structure : List PDFItem
  metadata : PDFMeta
deriving DecidableEq, Repr

/-- The item identity string used by the merge lookup:
f-string type|tag|filename with absent keys rendered as empty. -/
def identifier (it : PDFItem) : String :=
  it.ptype ++ "|" ++ it.tag ++ "|" ++ it.filename.getD ""

/-- Building the dict keyed by identifier: the last item with a given
identifier wins. -/
def priorLookup (items : List PDFItem) (key : String) : Option PDFItem :=
  items.foldl (fun acc it => if identifier it = key then some it else acc) none

/-- Copy display_title, title and include from the matching prior item
onto the fresh item, exactly as the source conditionals do.  include is a
mandatory field of every structure item, so the presence test on it is
always true. -/
def applyCustomizations (p fi : PDFItem) : PDFItem :=
  let f1 := if p.display_title.isSome ∧ p.display_title ≠ fi.display_title then
      { fi with display_title := p.display_title } else fi
  let f2 := if p.title.isSome ∧ p.title ≠ f1.title then
      { f1 with title := p.title } else f1
  { f2 with incl := p.incl }

/-- enhanced_doc_extractor.merge_user_customizations. -/
def merge_user_customizations (freshData existingData : PDFData) : PDFData :=
  let merged := freshData.pdf_structure.map (fun fi =>
    match priorLookup existingData.pdf_structure (identifier fi) with
    | some p => applyCustomizations p fi
    | none => fi)
  let md :=
    match existingData.metadata.last_updated with
    | some ts => { freshData.metadata with last_updated := some ts, user_customized := true }
    | none => freshData.metadata
  { pdf_structure := merged, metadata := md }

/-- Python str.replace(needle, ''), non-overlapping occurrences removed
left to right.  The fuel argument (initialized to the length of the text,
which only shrinks) keeps the recursion structural. -/
def removeAllGo (needle : List Char) : Nat → List Char → List Char
  | 0, _ => []
  | _, [] => []
  | fuel + 1, c :: r =>
    if needle ≠ [] ∧ needle.isPrefixOf (c :: r) then
      removeAllGo needle fuel (r.drop (needle.length - 1))
    else c :: removeAllGo needle fuel r

def removeAllSub (needle s : List Char) : List Char := removeAllGo needle s.length s

/-- Python str.zfill(w). -/
def zfill (w : Nat) (s : List Char) : List Char :=
  if w ≤ s.length then s
  else
    match s with
    | [] => List.replicate w '0'
    | c :: r =>
      if c = '+' ∨ c = '-' then c :: (List.replicate (w - s.length) '0' ++ r)
      else List.replicate (w - s.length) '0' ++ s

/-- Group tag_mapping files by tag, skipping files whose tag is falsy
(None or the empty string). -/
def addTagFile (gs : List (String × List String)) (t fn : String) :
    List (String × List String) :=
  match gs with
  | [] => [(t, [fn])]
  | (k, fs) :: rest =>
    if k = t then (k, fs ++ [fn]) :: rest else (k, fs) :: addTagFile rest t fn

def buildGroupsTM (tagMapping : List (String × Option String)) :
    List (String × List String) :=
  tagMapping.foldl (fun gs e =>
    match e.2 with
    | some t => if t = "" then gs else addTagFile gs t e.1
    | none => gs) []

/-- The sort key of sorted_tags: (x.startswith('AHU-'),
x.replace('AHU-','').replace('MAU-','').zfill(10)). -/
def tagSortKey (t : String) : Bool × List Char :=
  ("AHU-".data.isPrefixOf t.data,
   zfill 10 (removeAllSub "MAU-".data (removeAllSub "AHU-".data t.data)))

/-- Lexicographic comparison of the sort keys (False before True, then
code-point string order). -/
def tagKeyLe (a b : String) : Bool :=
  let ka := tagSortKey a
  let kb := tagSortKey b
  if ka.1 = kb.1 then decide (String.mk ka.2 ≤ String.mk kb.2) else (!ka.1 && kb.1)

/-- The per-file record built before sorting documents within a tag. -/
structure FInfo where
  filename : String
  file_type : String
  display_title : String
  priority : Nat
deriving DecidableEq, Repr

/-- Sort key (priority, filename), lexicographic. -/
def fileInfoLe (a b : FInfo) : Bool :=
  if a.priority = b.priority then decide (a.filename ≤ b.filename)
  else decide (a.priority ≤ b.priority)

/-- The document items of one tag, positions threaded from pos. -/
def genDocItems (tag : String) (pricedNames : List String) (noPF : Bool) :
    List FInfo → Nat → List PDFItem
  | [], _ => []
  | fi :: rest, pos =>
    let isPr := pricedNames.contains fi.filename
    { ptype := "document", tag := tag, filename := some fi.filename,
      display_title := some fi.display_title, file_type := some fi.file_type,
      converted_path := some ("converted_pdfs/" ++ String.mk (osRoot fi.filename.data) ++ ".pdf"),
      position := pos, incl := noPF || !isPr, pricing_file := some isPr } ::
    genDocItems tag pricedNames noPF rest (pos + 1)

/-- The block of one tag: its title page followed by its sorted
documents. -/
def genTagBlock (fs : List (String × MFile)) (docsPath : String)
    (noPF useFT : Bool) (tag : String) (files : List String) (pos : Nat) :
    List PDFItem :=
  let priced := files.filter (fun fn =>
    should_check_pricing_content fn useFT && has_pricing_content fs (docsPath ++ "/" ++ fn))
  let infos := files.map (fun fn =>
    { filename := fn, file_type := classify_file_type fn,
      display_title := create_display_title fn,
      priority := get_file_order_priority (classify_file_type fn) : FInfo })
  { ptype := "title_page", tag := tag, title := some tag,
    position := pos, incl := true : PDFItem } ::
  genDocItems tag priced noPF (stableSort fileInfoLe infos) (pos + 1)

/-- All equipment blocks in sorted-tag order. -/
def genTags (fs : List (String × MFile)) (docsPath : String) (noPF useFT : Bool)
    (groups : List (String × List String)) : List String → Nat → List PDFItem
  | [], _ => []
  | t :: ts, pos =>
    let block := genTagBlock fs docsPath noPF useFT t ((groups.lookup t).getD []) pos
    block ++ genTags fs docsPath noPF useFT groups ts (pos + block.length)

/-- glob.glob(os.path.join(docs_path, "CS*.pdf")) restricted to the files
of the directory listing (case-sensitive, as on a posix filesystem). -/
def globCSpdf (dirListing : List String) : List String :=
  dirListing.filter (fun fn =>
    6 ≤ fn.length && "CS".data.isPrefixOf fn.data && ".pdf".data.isSuffixOf fn.data)

/-- The cut-sheet items, positions threaded from pos. -/
def csItems : List String → Nat → List PDFItem
  | [], _ => []
  | p :: rest, pos =>
    let filename := String.mk (baseNameL p.data)
    { ptype := "cut_sheet", tag := "CUT SHEETS", filename := some filename,
      display_title := some (create_display_title filename),
      converted_path := some p, position := pos, incl := true : PDFItem } ::
    csItems rest (pos + 1)

/-- The trailing CUT SHEETS section: a title page plus the sorted
cut-sheet files, or nothing when the glob is empty. -/
def csBlock (docsPath : String) (dirListing : List String) (pos : Nat) :
    List PDFItem :=
  let paths := (globCSpdf dirListing).map (fun f => docsPath ++ "/" ++ f)
  if paths.isEmpty then []
  else
    { ptype := "title_page", tag := "CUT SHEETS", title := some "CUT SHEETS",
      position := pos, incl := true : PDFItem } ::
    csItems (stableSort (fun a b => decide (a ≤ b)) paths) (pos + 1)

/-- enhanced_doc_extractor.enhance_tag_mapping. -/
def enhance_tag_mapping (tagMapping : List (String × Option String))
    (docsPath : String) (noPricingFilter useFilenameTags : Bool)
    (fs : List (String × MFile)) (dirListing : List String)
    (existingUserEdits : Option PDFData) : PDFData :=
  let groups := buildGroupsTM tagMapping
  let sortedTags := stableSort tagKeyLe (groups.map (fun g => g.1))
  let mainItems := genTags fs docsPath noPricingFilter useFilenameTags groups sortedTags 1
  let allItems := mainItems ++ csBlock docsPath dirListing (mainItems.length + 1)
  let dat : PDFData :=
    { pdf_structure := allItems,
      metadata :=
        { total_tags := allItems.countP (fun it => it.ptype = "title_page"),
          total_documents := allItems.countP (fun it => it.ptype = "document"),
          total_cut_sheets := allItems.countP (fun it => it.ptype = "cut_sheet"),
          total_items := allItems.length,
          processing_complete := true,
          pricing_filter_enabled := !noPricingFilter } }
  match existingUserEdits with
  | some e => merge_user_customizations dat e
  | none => dat

/-! ## Assembly and bookmark builder (archive create_final_pdf)

External collaborators are modelled by oracles: titlePages tag title
returns the page count of a successfully generated and appended title
page (none models generation failure, a missing file, or a reader
error); docPages item returns the page count of the resolved converted
PDF of a document or cut-sheet item (none models an unresolved path or a
reader error).  Every successful append records the 0-indexed inclusive
page range exactly when the pages are added, and creates one outline
entry; bookmark parents are indices into the bookmark list. -/
structure AsmEnv where
  titlePages : String → String → Option Nat
  docPages : PDFItem → Option Nat

structure BMark where
  title : String
  page : Nat
  parent : Option Nat
  fromTitlePage : Bool
deriving DecidableEq, Repr

structure AppendedRec where
  itm : PDFItem
  startPage : Nat
  endPage : Nat
deriving DecidableEq, Repr

structure AsmState where
  pages : Nat := 0
  bms : List BMark := []
  recs : List AppendedRec := []
  curParent : Option Nat := none
deriving DecidableEq, Repr

/-- Processing of one structure item by create_final_pdf. -/
def asmStep (env : AsmEnv) (st : AsmState) (it : PDFItem) : AsmState :=
  if it.ptype = "title_page" then
    match env.titlePages it.tag (it.title.getD it.tag) with
    | none => st
    | some n =>
      { pages := st.pages + n,
        bms := st.bms ++ [{ title := it.title.getD it.tag, page := st.pages,
                            parent := none, fromTitlePage := true }],
        recs := st.recs ++ [{ itm := it, startPage := st.pages,
                              endPage := st.pages + n - 1 }],
        curParent := some st.bms.length }
  else if it.ptype = "document" ∨ it.ptype = "cut_sheet" then
    match env.docPages it with
    | none => st
    | some n =>
      { pages := st.pages + n,
        bms := st.bms ++ [{ title := it.display_title.getD (it.filename.getD "Unknown"),
                            page := st.pages, parent := st.curParent,
                            fromTitlePage := false }],
        recs := st.recs ++ [{ itm := it, startPage := st.pages,
                              endPage := st.pages + n - 1 }],
        curParent := st.curParent }
  else st

/-- The items create_final_pdf walks: include=true items sorted by
position (a stable sort on the position key). -/
def includedSorted (items : List PDFItem) : List PDFItem :=
  stableSort (fun a b => decide (a.position ≤ b.position)) (items.filter (fun it => it.incl))

def runAsm (env : AsmEnv) : AsmState → List PDFItem → AsmState
  | st, [] => st
  | st, it :: rest => runAsm env (asmStep env st it) rest

/-- create_final_pdf: fold the assembly step over the included items in
position order, starting from the empty writer. -/
def create_final_pdf (env : AsmEnv) (items : List PDFItem) : AsmState :=
  runAsm env {} (includedSorted items)

/-- re.sub(r'^0+(\d)', r'\1', s): drop leading zeros, keeping one digit
when zeros are followed by a non-digit or nothing. -/
def stripLeadZeros (s : List Char) : List Char :=
  let z := (s.takeWhile (fun c => c = '0')).length
  if z = 0 then s
  else
    match s.drop z with
    | c :: _ => if isAsciiDigit c then s.drop z else s.drop (z - 1)
    | [] => s.drop (z - 1)

/-- TagExtractionStage normalize_tag. -/
def normalize_tag (tag : String) : String :=
  let t := upperStr (pyStrip tag.data)
  let letters := t.takeWhile isAsciiUpper
  if letters.isEmpty then String.mk t
  else
    let afterL := t.drop letters.length
    let seps := afterL.takeWhile (fun c => c = '-' ∨ isPySpace c)
    let afterS := afterL.drop seps.length
    let digits := afterS.takeWhile isAsciiDigit
    if digits.isEmpty then String.mk t
    else
      let letters2 := (afterS.drop digits.length).takeWhile isAsciiUpper
      String.mk (letters ++ '-' :: stripLeadZeros (digits ++ letters2))

/-- Matching by the (type, tag, filename) identity triple, with an absent
filename read as the empty string as the source f-string does. -/
def sameKey (p fi : PDFItem) : Bool :=
  p.ptype = fi.ptype && p.tag = fi.tag && p.filename.getD "" = fi.filename.getD ""

/-- The last prior item with the same identity triple (later dict entries
overwrite earlier ones). -/
def specFindPrior (items : List PDFItem) (fi : PDFItem) : Option PDFItem :=
  items.foldl (fun acc p => if sameKey p fi then some p else acc) none

/-- Structure items as the data model describes them: one of the three
item types, and no pipe character inside tag or filename. -/
def wellFormedItem (it : PDFItem) : Bool :=
  (it.ptype = "title_page" || it.ptype = "document" || it.ptype = "cut_sheet") &&
  !it.tag.data.contains '|' && !(it.filename.getD "").data.contains '|'

/-- What merge does to one fresh item matched against a prior item, and
what it leaves untouched. -/
def mergedItemSpec (existingItems : List PDFItem) (m fi : PDFItem) : Prop :=
  m.ptype = fi.ptype ∧ m.tag = fi.tag ∧ m.filename = fi.filename ∧
  m.position = fi.position ∧ m.file_type = fi.file_type ∧
  m.pricing_file = fi.pricing_file ∧ m.converted_path = fi.converted_path ∧
  (match specFindPrior existingItems fi with
   | none => m = fi
   | some p =>
     m.display_title = (if p.display_title.isSome then p.display_title else fi.display_title) ∧
     m.title = (if p.title.isSome then p.title else fi.title) ∧
     m.incl = p.incl)

/-- The full frame/effect specification of the merge. -/
def mergeFrameSpec (freshData existingData : PDFData) : Prop :=
  (merge_user_customizations freshData existingData).pdf_structure.length =
    freshData.pdf_structure.length ∧
  ∀ i (h : i < (merge_user_customizations freshData existingData).pdf_structure.length)
    (h2 : i < freshData.pdf_structure.length),
    mergedItemSpec existingData.pdf_structure
      ((merge_user_customizations freshData existingData).pdf_structure[i])
      (freshData.pdf_structure[i])

def c2cexFresh : PDFData :=
  { pdf_structure :=
      [{ ptype := "document", tag := "X|Y", filename := some "Z",
         display_title := some "fresh", position := 1, incl := true,
         pricing_file := some false }],
    metadata := {} }

def c2cexPrior : PDFData :=
  { pdf_structure :=
      [{ ptype := "document", tag := "X", filename := some "Y|Z",
         display_title := some "edited", position := 1, incl := false,
         pricing_file := some false }],
    metadata := {} }

def c2wFresh : PDFData :=
  { pdf_structure :=
      [{ ptype := "title_page", tag := "AHU-1", title := some "AHU-1",
         position := 1, incl := true },
       { ptype := "document", tag := "AHU-1",
         filename := some "AHU-1 - Technical Data Sheet.docx",
         display_title := some "AHU 1 Technical Data Sheet",
         file_type := some "Technical Data Sheet", position := 2, incl := true,
         pricing_file := some false }],
    metadata := {} }

def c2wPrior : PDFData :=
  { pdf_structure :=
      [{ ptype := "document", tag := "AHU-1",
         filename := some "AHU-1 - Technical Data Sheet.docx",
         display_title := some "Edited Title",
         file_type := some "Technical Data Sheet", position := 7, incl := false,
         pricing_file := some true }],
    metadata := {} }

/-- The include rule as the specification phrases it, for one generator
run without a prior structure. -/
def includeRuleHolds (tagMapping : List (String × Option String))
    (docsPath : String) (noPF useFT : Bool) (fs : List (String × MFile))
    (dirListing : List String) : Prop :=
  ∀ it ∈ (enhance_tag_mapping tagMapping docsPath noPF useFT fs dirListing none).pdf_structure,
    it.ptype = "document" →
    it.pricing_file.isSome = true ∧
    it.incl =
      (if (enhance_tag_mapping tagMapping docsPath noPF useFT fs dirListing
            none).metadata.pricing_filter_enabled
       then !(it.pricing_file.getD false) else true)

def c3fs : List (String × MFile) :=
  [("docs/MAU-12 - Item Summary.docx", { paragraphs := ["Total: $1,234.56"] })]

def c3tm : List (String × Option String) :=
  [("MAU-12 - Item Summary.docx", some "MAU-12")]

def c3docItem : PDFItem :=
  { ptype := "document", tag := "MAU-12",
    filename := some "MAU-12 - Item Summary.docx",
    display_title := some "MAU 12 Item Summary",
    file_type := some "Item Summary",
    converted_path := some "converted_pdfs/MAU-12 - Item Summary.pdf",
    position := 2, incl := false, pricing_file := some true }

/-! ## Claim C4: pricing detection -/
def c4file : MFile := { paragraphs := ["Amounts are in US $ unless stated"] }

def c4fs : List (String × MFile) := [("docs/Legal Terms.docx", c4file)]

/-! ## Claim C5: the end-to-end four-file scenario -/
def c5files : List String :=
  ["AHU-1 - Technical Data Sheet.docx", "AHU-1 - Fan Curve.jpg",
   "MAU-5 - Technical Data Sheet.docx", "CS_Widget.pdf"]

def c5tm : List (String × Option String) :=
  c5files.map (fun fn => (fn, extract_tag_from_filename fn))

/-- The recorded page ranges are contiguous: starting at page p, each
appended item starts where the previous one ended plus one, and q is the
next free page after the last. -/
def chainTo : Nat → List AppendedRec → Nat → Prop
  | p, [], q => p = q
  | p, r :: rs, q => r.startPage = p ∧ chainTo (r.endPage + 1) rs q

/-- The outline discipline: a bookmark created for a title page is
top-level; every other bookmark points at the latest earlier title-page
bookmark (and has no parent only when no title page was appended before
it). -/
def parentSpec (bms : List BMark) : Prop :=
  ∀ j (h : j < bms.length),
    (bms[j].fromTitlePage = true → bms[j].parent = none) ∧
    (bms[j].fromTitlePage = false →
      (∀ p, bms[j].parent = some p → ∃ hp : p < bms.length, p < j ∧
        bms[p].fromTitlePage = true ∧
        (∀ i (hi : i < bms.length), p < i → i < j → bms[i].fromTitlePage = false)) ∧
      (bms[j].parent = none →
        ∀ i (hi : i < bms.length), i < j → bms[i].fromTitlePage = false))

/-- Each bookmark belongs to the append that created it: same index, the
page is the recorded start page, title-page appends make title bookmarks,
and non-title appends come from document or cut-sheet items. -/
def bmRecAligned (bms : List BMark) (recs : List AppendedRec) : Prop :=
  bms.length = recs.length ∧
  ∀ j (h : j < bms.length) (h2 : j < recs.length),
    bms[j].page = recs[j].startPage ∧
    bms[j].fromTitlePage = decide (recs[j].itm.ptype = "title_page") ∧
    (recs[j].itm.ptype ≠ "title_page" →
      recs[j].itm.ptype = "document" ∨ recs[j].itm.ptype = "cut_sheet")

/-- The current-parent register points at the latest title bookmark, if
any. -/
def curOk (cur : Option Nat) (bms : List BMark) : Prop :=
  (cur = none → ∀ i (h : i < bms.length), bms[i].fromTitlePage = false) ∧
  (∀ p, cur = some p → ∃ hp : p < bms.length,
    bms[p].fromTitlePage = true ∧
    ∀ i (h : i < bms.length), p < i → bms[i].fromTitlePage = false)

def asmInv (st : AsmState) : Prop :=
  bmRecAligned st.bms st.recs ∧ chainTo 0 st.recs st.pages ∧
  parentSpec st.bms ∧ curOk st.curParent st.bms

/-- Page counts an assembly environment can report: a readable PDF always
has at least one page. -/
def envPagesPos (env : AsmEnv) : Prop :=
  (∀ tag ti n, env.titlePages tag ti = some n → 1 ≤ n) ∧
  (∀ it n, env.docPages it = some n → 1 ≤ n)

/-- Everything claim C6 asserts about one assembly run. -/
def asmBookmarkSpec (env : AsmEnv) (items : List PDFItem) : Prop :=
  (includedSorted items).Perm (items.filter (fun it => it.incl)) ∧
  List.Pairwise (fun a b : PDFItem => a.position ≤ b.position) (includedSorted items) ∧
  (∀ it ∈ includedSorted items, it.incl = true) ∧
  ((create_final_pdf env items).recs.map (fun r => r.itm)).Sublist (includedSorted items) ∧
  bmRecAligned (create_final_pdf env items).bms (create_final_pdf env items).recs ∧
  chainTo 0 (create_final_pdf env items).recs (create_final_pdf env items).pages ∧
  parentSpec (create_final_pdf env items).bms

def c6env : AsmEnv :=
  { titlePages := fun _ _ => some 1, docPages := fun _ => some 2 }

def c6items : List PDFItem :=
  [{ ptype := "title_page", tag := "MAU-5", title := some "MAU-5",
     position := 1, incl := true },
   { ptype := "document", tag := "MAU-5", filename := some "a.docx",
     display_title := some "A", position := 2, incl := true,
     pricing_file := some false },
   { ptype := "document", tag := "MAU-5", filename := some "b.docx",
     display_title := some "B", position := 3, incl := false,
     pricing_file := some true },
   { ptype := "title_page", tag := "CUT SHEETS", title := some "CUT SHEETS",
     position := 4, incl := true },
   { ptype := "cut_sheet", tag := "CUT SHEETS", filename := some "CS_x.pdf",
     display_title := some "x", position := 5, incl := true }]

/-- The enumeration the data model declares for document
classifications. -/
def declaredDocCategories : List String :=
  ["technical_data", "fan_curve", "drawing", "item_summary", "specification",
   "cutsheet", "manual", "warranty", "other"]

def allowedDocCategories : List String :=
  declaredDocCategories ++ ["spreadsheet"]

/-! ## General lemmas about the stable sort and generators -/
theorem insLe_length {α : Type} (le : α → α → Bool) (x : α) (l : List α) :
    (insLe le x l).length = l.length + 1 := by
  induction l with
  | nil => rfl
  | cons y ys ih =>
    simp only [insLe]
    split
    · simp [ih]
    · simp

theorem stableSortAux_length {α : Type} (le : α → α → Bool) (l acc : List α) :
    (l.foldl (fun acc x => insLe le x acc) acc).length = acc.length + l.length := by
  induction l generalizing acc with
  | nil => simp
  | cons x xs ih =>
    simp only [List.foldl_cons]
    rw [ih, insLe_length]
    simp only [List.length_cons]
    omega

theorem stableSort_length {α : Type} (le : α → α → Bool) (l : List α) :
    (stableSort le l).length = l.length := by
  simp [stableSort, stableSortAux_length]

theorem genDocItems_positions (tag : String) (pricedNames : List String)
    (noPF : Bool) (infos : List FInfo) (pos : Nat) :
    (genDocItems tag pricedNames noPF infos pos).map (fun it => it.position) =
      List.range' pos infos.length := by
  induction infos generalizing pos with
  | nil => rfl
  | cons fi rest ih =>
    simp only [genDocItems, List.map_cons, List.length_cons, List.range'_succ]
    exact congrArg _ (ih (pos + 1))

theorem genDocItems_length (tag : String) (pricedNames : List String)
    (noPF : Bool) (infos : List FInfo) (pos : Nat) :
    (genDocItems tag pricedNames noPF infos pos).length = infos.length := by
  induction infos generalizing pos with
  | nil => rfl
  | cons fi rest ih => simp [genDocItems, ih]

theorem rangeJoin (s m n : Nat) :
    List.range' s m ++ List.range' (s + m) n = List.range' s (m + n) := by
  have h := List.range'_append s m n 1
  rw [Nat.one_mul] at h
  rw [h, Nat.add_comm n m]

theorem genTagBlock_positions (fs : List (String × MFile)) (docsPath : String)
    (noPF useFT : Bool) (tag : String) (files : List String) (pos : Nat) :
    (genTagBlock fs docsPath noPF useFT tag files pos).map (fun it => it.position) =
      List.range' pos (files.length + 1) := by
  simp only [genTagBlock, List.map_cons, List.range'_succ]
  rw [genDocItems_positions]
  rw [stableSort_length]
  simp

theorem genTagBlock_length (fs : List (String × MFile)) (docsPath : String)
    (noPF useFT : Bool) (tag : String) (files : List String) (pos : Nat) :
    (genTagBlock fs docsPath noPF useFT tag files pos).length = files.length + 1 := by
  have h := congrArg List.length (genTagBlock_positions fs docsPath noPF useFT tag files pos)
  simpa using h

theorem genTags_positions (fs : List (String × MFile)) (docsPath : String)
    (noPF useFT : Bool) (groups : List (String × List String))
    (tags : List String) (pos : Nat) :
    (genTags fs docsPath noPF useFT groups tags pos).map (fun it => it.position) =
      List.range' pos (genTags fs docsPath noPF useFT groups tags pos).length := by
  induction tags generalizing pos with
  | nil => rfl
  | cons t ts ih =>
    simp only [genTags, List.map_append, List.length_append]
    rw [genTagBlock_positions, genTagBlock_length, ih]
    rw [rangeJoin]

theorem csItems_positions (paths : List String) (pos : Nat) :
    (csItems paths pos).map (fun it => it.position) = List.range' pos paths.length := by
  induction paths generalizing pos with
  | nil => rfl
  | cons p rest ih =>
    simp only [csItems, List.map_cons, List.length_cons, List.range'_succ]
    exact congrArg _ (ih (pos + 1))

theorem csItems_length (paths : List String) (pos : Nat) :
    (csItems paths pos).length = paths.length := by
  induction paths generalizing pos with
  | nil => rfl
  | cons p rest ih => simp [csItems, ih]

theorem csBlock_positions (docsPath : String) (dirListing : List String) (pos : Nat) :
    (csBlock docsPath dirListing pos).map (fun it => it.position) =
      List.range' pos (csBlock docsPath dirListing pos).length := by
  simp only [csBlock]
  split
  · rfl
  · simp only [List.map_cons, List.length_cons, List.range'_succ]
    rw [csItems_positions, csItems_length]

theorem applyCustomizations_position (p fi : PDFItem) :
    (applyCustomizations p fi).position = fi.position := by
  simp only [applyCustomizations]
  split
  · split
    · rfl
    · rfl
  · split
    · rfl
    · rfl

theorem merge_positions (freshData existingData : PDFData) :
    (merge_user_customizations freshData existingData).pdf_structure.map
      (fun it => it.position) =
      freshData.pdf_structure.map (fun it => it.position) := by
  simp only [merge_user_customizations, List.map_map]
  apply List.map_congr_left
  intro fi _
  simp only [Function.comp_apply]
  split
  · exact applyCustomizations_position _ _
  · rfl

theorem rangeJoin2 (s m n : Nat) :
    List.range' s m ++ List.range' (m + s) n = List.range' s (m + n) := by
  rw [Nat.add_comm m s]
  exact rangeJoin s m n

/-- The claim C1 result specialized to the generator before any merge. -/
theorem enhanceFresh_positions (tagMapping : List (String × Option String))
    (docsPath : String) (noPF useFT : Bool) (fs : List (String × MFile))
    (dirListing : List String) :
    (enhance_tag_mapping tagMapping docsPath noPF useFT fs dirListing none).pdf_structure.map
        (fun it => it.position) =
      List.range' 1
        (enhance_tag_mapping tagMapping docsPath noPF useFT fs dirListing none).pdf_structure.length := by
  simp only [enhance_tag_mapping, List.map_append, List.length_append]
  rw [genTags_positions, csBlock_positions, rangeJoin2]

/-- Claim C1: for every input batch, the positions of the structure
produced by enhance_tag_mapping (with or without a prior structure to
merge) are exactly 1, 2, ..., N in order: a dense, strictly increasing
sequence starting at 1 over all items, with no gaps or duplicates, and
independent of the include flags (which the position assignment never
consults). -/
theorem claim_C1_positions_dense (tagMapping : List (String × Option String))
    (docsPath : String) (noPF useFT : Bool) (fs : List (String × MFile))
    (dirListing : List String) (existingUserEdits : Option PDFData) :
    (enhance_tag_mapping tagMapping docsPath noPF useFT fs dirListing
        existingUserEdits).pdf_structure.map (fun it => it.position) =
      List.range' 1
        (enhance_tag_mapping tagMapping docsPath noPF useFT fs dirListing
          existingUserEdits).pdf_structure.length := by
  match existingUserEdits with
  | none => exact enhanceFresh_positions tagMapping docsPath noPF useFT fs dirListing
  | some e =>
    have h1 : enhance_tag_mapping tagMapping docsPath noPF useFT fs dirListing (some e) =
        merge_user_customizations
          (enhance_tag_mapping tagMapping docsPath noPF useFT fs dirListing none) e := rfl
    rw [h1, merge_positions]
    have h := congrArg List.length (merge_positions
      (enhance_tag_mapping tagMapping docsPath noPF useFT fs dirListing none) e)
    simp only [List.length_map] at h
    rw [h]
    exact enhanceFresh_positions tagMapping docsPath noPF useFT fs dirListing

theorem splitPipe (x1 : List Char) : ∀ (x2 r1 r2 : List Char),
    '|' ∉ x1 → '|' ∉ x2 →
    x1 ++ '|' :: r1 = x2 ++ '|' :: r2 → x1 = x2 ∧ r1 = r2 := by
  induction x1 with
  | nil =>
    intro x2 r1 r2 _ h2 heq
    cases x2 with
    | nil => simpa using heq
    | cons c cs =>
      simp only [List.nil_append, List.cons_append, List.cons.injEq] at heq
      exact absurd (heq.1 ▸ List.mem_cons_self c cs) h2
  | cons c cs ih =>
    intro x2 r1 r2 h1 h2 heq
    cases x2 with
    | nil =>
      simp only [List.cons_append, List.nil_append, List.cons.injEq] at heq
      exact absurd (heq.1 ▸ List.mem_cons_self c cs) (heq.1 ▸ h1)
    | cons d ds =>
      simp only [List.cons_append, List.cons.injEq] at heq
      rcases heq with ⟨hc, hrest⟩
      have h1c : '|' ∉ cs := fun hm => h1 (List.mem_cons_of_mem c hm)
      have h2c : '|' ∉ ds := fun hm => h2 (List.mem_cons_of_mem d hm)
      obtain ⟨hx, hr⟩ := ih ds r1 r2 h1c h2c hrest
      exact ⟨by rw [hc, hx], hr⟩

theorem wellFormed_ptype_noPipe (it : PDFItem) (h : wellFormedItem it = true) :
    '|' ∉ it.ptype.data := by
  have h2 : (it.ptype = "title_page" ∨ it.ptype = "document") ∨ it.ptype = "cut_sheet" := by
    simp only [wellFormedItem, Bool.and_eq_true, Bool.or_eq_true, decide_eq_true_eq] at h
    exact h.1.1
  obtain (h3 | h3) | h3 := h2 <;> rw [h3] <;> decide

theorem wellFormed_tag_noPipe (it : PDFItem) (h : wellFormedItem it = true) :
    '|' ∉ it.tag.data := by
  simp only [wellFormedItem, Bool.and_eq_true, Bool.not_eq_true'] at h
  simpa using h.1.2

theorem wellFormed_fn_noPipe (it : PDFItem) (h : wellFormedItem it = true) :
    '|' ∉ (it.filename.getD "").data := by
  simp only [wellFormedItem, Bool.and_eq_true, Bool.not_eq_true'] at h
  simpa using h.2

theorem identifier_eq_iff (p fi : PDFItem) (hp : wellFormedItem p = true)
    (hf : wellFormedItem fi = true) :
    (identifier p = identifier fi) ↔ sameKey p fi = true := by
  constructor
  · intro heq
    rw [String.ext_iff] at heq
    simp only [identifier, String.data_append] at heq
    have heq2 : p.ptype.data ++ '|' :: (p.tag.data ++ '|' :: (p.filename.getD "").data) =
        fi.ptype.data ++ '|' :: (fi.tag.data ++ '|' :: (fi.filename.getD "").data) := by
      simpa using heq
    obtain ⟨e1, e2⟩ := splitPipe p.ptype.data fi.ptype.data
      (p.tag.data ++ '|' :: (p.filename.getD "").data)
      (fi.tag.data ++ '|' :: (fi.filename.getD "").data)
      (wellFormed_ptype_noPipe p hp) (wellFormed_ptype_noPipe fi hf) heq2
    obtain ⟨e3, e4⟩ := splitPipe p.tag.data fi.tag.data
      (p.filename.getD "").data (fi.filename.getD "").data
      (wellFormed_tag_noPipe p hp) (wellFormed_tag_noPipe fi hf) e2
    simp only [sameKey, Bool.and_eq_true, decide_eq_true_eq]
    exact ⟨⟨String.ext e1, String.ext e3⟩, String.ext e4⟩
  · intro hk
    simp only [sameKey, Bool.and_eq_true, decide_eq_true_eq] at hk
    rcases hk with ⟨⟨e1, e2⟩, e3⟩
    simp [identifier, e1, e2, e3]

theorem foldl_cond_congr (cond1 cond2 : PDFItem → Bool) (l : List PDFItem) :
    (∀ p ∈ l, cond1 p = cond2 p) →
    ∀ acc : Option PDFItem,
      l.foldl (fun acc p => if cond1 p then some p else acc) acc =
      l.foldl (fun acc p => if cond2 p then some p else acc) acc := by
  induction l with
  | nil => intro _ acc; rfl
  | cons q qs ih =>
    intro h acc
    simp only [List.foldl_cons]
    rw [h q (by simp)]
    exact ih (fun p hp => h p (by simp [hp])) _

theorem priorLookup_eq_specFind (existingItems : List PDFItem) (fi : PDFItem)
    (he : ∀ it ∈ existingItems, wellFormedItem it = true)
    (hf : wellFormedItem fi = true) :
    priorLookup existingItems (identifier fi) = specFindPrior existingItems fi := by
  unfold priorLookup specFindPrior
  have h := foldl_cond_congr (fun p => decide (identifier p = identifier fi))
    (fun p => sameKey p fi) existingItems
    (fun p hp => by
      have := identifier_eq_iff p fi (he p hp) hf
      by_cases hc : identifier p = identifier fi
      · simp [hc, this.mp hc]
      · have : sameKey p fi = false := by
          cases hk : sameKey p fi
          · rfl
          · exact absurd (this.mpr hk) hc
        simp [hc, this]) none
  simpa using h

theorem applyCustomizations_keeps {α : Type} (p fi : PDFItem) (g : PDFItem → α)
    (h1 : ∀ (x : PDFItem) (v : Option String), g { x with display_title := v } = g x)
    (h2 : ∀ (x : PDFItem) (v : Option String), g { x with title := v } = g x)
    (h3 : ∀ (x : PDFItem) (v : Bool), g { x with incl := v } = g x) :
    g (applyCustomizations p fi) = g fi := by
  simp only [applyCustomizations]
  rw [h3, apply_ite g, h2, ite_self, apply_ite g, h1, ite_self]

theorem applyCustomizations_title (p fi : PDFItem) :
    (applyCustomizations p fi).title = (if p.title.isSome then p.title else fi.title) := by
  have hf1 : (if p.display_title.isSome ∧ p.display_title ≠ fi.display_title then
      { fi with display_title := p.display_title } else fi).title = fi.title := by
    split <;> rfl
  show (if p.title.isSome ∧ p.title ≠
          (if p.display_title.isSome ∧ p.display_title ≠ fi.display_title then
            { fi with display_title := p.display_title } else fi).title then
        { (if p.display_title.isSome ∧ p.display_title ≠ fi.display_title then
            { fi with display_title := p.display_title } else fi) with title := p.title }
       else (if p.display_title.isSome ∧ p.display_title ≠ fi.display_title then
            { fi with display_title := p.display_title } else fi)).title = _
  rw [apply_ite PDFItem.title]
  show (if p.title.isSome ∧ p.title ≠
          (if p.display_title.isSome ∧ p.display_title ≠ fi.display_title then
            { fi with display_title := p.display_title } else fi).title then
        p.title
       else (if p.display_title.isSome ∧ p.display_title ≠ fi.display_title then
            { fi with display_title := p.display_title } else fi).title) = _
  rw [hf1]
  by_cases hs : p.title.isSome
  · by_cases hne : p.title ≠ fi.title
    · rw [if_pos ⟨hs, hne⟩, if_pos hs]
    · rw [if_neg (fun h => hne h.2), if_pos hs]
      push_neg at hne
      exact hne.symm
  · rw [if_neg (fun h => hs h.1), if_neg hs]

theorem applyCustomizations_display (p fi : PDFItem) :
    (applyCustomizations p fi).display_title =
      (if p.display_title.isSome then p.display_title else fi.display_title) := by
  show (if p.title.isSome ∧ p.title ≠
          (if p.display_title.isSome ∧ p.display_title ≠ fi.display_title then
            { fi with display_title := p.display_title } else fi).title then
        { (if p.display_title.isSome ∧ p.display_title ≠ fi.display_title then
            { fi with display_title := p.display_title } else fi) with title := p.title }
       else (if p.display_title.isSome ∧ p.display_title ≠ fi.display_title then
            { fi with display_title := p.display_title } else fi)).display_title = _
  rw [apply_ite PDFItem.display_title]
  show (if p.title.isSome ∧ p.title ≠
          (if p.display_title.isSome ∧ p.display_title ≠ fi.display_title then
            { fi with display_title := p.display_title } else fi).title then
        (if p.display_title.isSome ∧ p.display_title ≠ fi.display_title then
            { fi with display_title := p.display_title } else fi).display_title
       else (if p.display_title.isSome ∧ p.display_title ≠ fi.display_title then
            { fi with display_title := p.display_title } else fi).display_title) = _
  rw [ite_self]
  by_cases hd : p.display_title.isSome
  · by_cases hne : p.display_title ≠ fi.display_title
    · rw [if_pos ⟨hd, hne⟩, if_pos hd]
    · rw [if_neg (fun h => hne h.2), if_pos hd]
      push_neg at hne
      exact hne.symm
  · rw [if_neg (fun h => hd h.1), if_neg hd]

theorem applyCustomizations_incl (p fi : PDFItem) :
    (applyCustomizations p fi).incl = p.incl := rfl

/-- Claim C2, amended: within the data-model item universe (the three
item types, no pipe character in tags or filenames, under which the
identifier string determines the identity triple), merge copies onto each
fresh item only display_title, title and include from the last prior item
with the same (type, tag, filename) key, and changes nothing else; fresh
items without a match are returned unchanged, and only fresh items appear
in the output. -/
theorem claim_C2_amended (freshData existingData : PDFData)
    (hf : ∀ it ∈ freshData.pdf_structure, wellFormedItem it = true)
    (he : ∀ it ∈ existingData.pdf_structure, wellFormedItem it = true) :
    mergeFrameSpec freshData existingData := by
  have hlen : (merge_user_customizations freshData existingData).pdf_structure.length =
      freshData.pdf_structure.length := by
    simp [merge_user_customizations]
  refine ⟨hlen, ?_⟩
  intro i h h2
  have hget : (merge_user_customizations freshData existingData).pdf_structure[i] =
      (fun fi => match priorLookup existingData.pdf_structure (identifier fi) with
        | some p => applyCustomizations p fi
        | none => fi) (freshData.pdf_structure[i]) := by
    show (freshData.pdf_structure.map _)[i] = _
    rw [List.getElem_map]
  have hwfi : wellFormedItem (freshData.pdf_structure[i]) = true :=
    hf _ (List.getElem_mem h2)
  rw [hget]
  simp only
  rw [priorLookup_eq_specFind existingData.pdf_structure (freshData.pdf_structure[i]) he hwfi]
  cases hspec : specFindPrior existingData.pdf_structure (freshData.pdf_structure[i]) with
  | none => simp [mergedItemSpec, hspec]
  | some p =>
    simp only [mergedItemSpec, hspec]
    refine ⟨?_, ?_, ?_, ?_, ?_, ?_, ?_, ?_, ?_, ?_⟩
    · exact applyCustomizations_keeps p _ PDFItem.ptype
        (fun _ _ => rfl) (fun _ _ => rfl) (fun _ _ => rfl)
    · exact applyCustomizations_keeps p _ PDFItem.tag
        (fun _ _ => rfl) (fun _ _ => rfl) (fun _ _ => rfl)
    · exact applyCustomizations_keeps p _ PDFItem.filename
        (fun _ _ => rfl) (fun _ _ => rfl) (fun _ _ => rfl)
    · exact applyCustomizations_keeps p _ PDFItem.position
        (fun _ _ => rfl) (fun _ _ => rfl) (fun _ _ => rfl)
    · exact applyCustomizations_keeps p _ PDFItem.file_type
        (fun _ _ => rfl) (fun _ _ => rfl) (fun _ _ => rfl)
    · exact applyCustomizations_keeps p _ PDFItem.pricing_file
        (fun _ _ => rfl) (fun _ _ => rfl) (fun _ _ => rfl)
    · exact applyCustomizations_keeps p _ PDFItem.converted_path
        (fun _ _ => rfl) (fun _ _ => rfl) (fun _ _ => rfl)
    · exact applyCustomizations_display p _
    · exact applyCustomizations_title p _
    · exact applyCustomizations_incl p _

/-- Claim C2 counterexample: the merge lookup key is the concatenated
string type|tag|filename, so the fresh item (document, X|Y, Z) collides
with the prior item (document, X, Y|Z); merge then copies include=false
and the edited title onto a fresh item although no prior item carries the
same (type, tag, filename) identity key, contradicting the claim that
such fresh items keep their generated values unchanged. -/
theorem claim_C2_cex :
    ((merge_user_customizations c2cexFresh c2cexPrior).pdf_structure.map
        (fun it => (it.incl, it.display_title)) = [(false, some "edited")]) ∧
    (c2cexFresh.pdf_structure.map (fun it => (it.incl, it.display_title)) =
        [(true, some "fresh")]) ∧
    (c2cexPrior.pdf_structure.all (fun p =>
      !(p.ptype = "document" && p.tag = "X|Y" && p.filename == some "Z"))) := by
  refine ⟨by decide, by decide, by decide⟩

/-- Witness for the amended claim C2 at a concrete pipe-free pair of
structures. -/
theorem claim_C2_witness : mergeFrameSpec c2wFresh c2wPrior :=
  claim_C2_amended c2wFresh c2wPrior (by decide) (by decide)

/-! ## Claim C3: include derivation from the pricing flag -/
theorem genDocItems_mem (tag : String) (pricedNames : List String) (noPF : Bool)
    (infos : List FInfo) (pos : Nat) (it : PDFItem)
    (h : it ∈ genDocItems tag pricedNames noPF infos pos) :
    ∃ isPr : Bool, it.ptype = "document" ∧ it.incl = (noPF || !isPr) ∧
      it.pricing_file = some isPr := by
  induction infos generalizing pos with
  | nil => simp [genDocItems] at h
  | cons fi rest ih =>
    simp only [genDocItems, List.mem_cons] at h
    rcases h with h | h
    · exact ⟨pricedNames.contains fi.filename, by rw [h], by rw [h], by rw [h]⟩
    · exact ih (pos + 1) h

theorem genTagBlock_mem (fs : List (String × MFile)) (docsPath : String)
    (noPF useFT : Bool) (tag : String) (files : List String) (pos : Nat)
    (it : PDFItem) (h : it ∈ genTagBlock fs docsPath noPF useFT tag files pos) :
    it.ptype = "title_page" ∨
    ∃ isPr : Bool, it.ptype = "document" ∧ it.incl = (noPF || !isPr) ∧
      it.pricing_file = some isPr := by
  simp only [genTagBlock, List.mem_cons] at h
  rcases h with h | h
  · left
    rw [h]
  · exact Or.inr (genDocItems_mem _ _ _ _ _ _ h)

theorem genTags_mem (fs : List (String × MFile)) (docsPath : String)
    (noPF useFT : Bool) (groups : List (String × List String))
    (tags : List String) (pos : Nat) (it : PDFItem)
    (h : it ∈ genTags fs docsPath noPF useFT groups tags pos) :
    it.ptype = "title_page" ∨
    ∃ isPr : Bool, it.ptype = "document" ∧ it.incl = (noPF || !isPr) ∧
      it.pricing_file = some isPr := by
  induction tags generalizing pos with
  | nil => simp [genTags] at h
  | cons t ts ih =>
    simp only [genTags, List.mem_append] at h
    rcases h with h | h
    · exact genTagBlock_mem _ _ _ _ _ _ _ _ h
    · exact ih _ h

theorem csItems_mem (paths : List String) (pos : Nat) (it : PDFItem)
    (h : it ∈ csItems paths pos) : it.ptype = "cut_sheet" := by
  induction paths generalizing pos with
  | nil => simp [csItems] at h
  | cons p rest ih =>
    simp only [csItems, List.mem_cons] at h
    rcases h with h | h
    · rw [h]
    · exact ih (pos + 1) h

theorem csBlock_mem (docsPath : String) (dirListing : List String) (pos : Nat)
    (it : PDFItem) (h : it ∈ csBlock docsPath dirListing pos) :
    it.ptype = "title_page" ∨ it.ptype = "cut_sheet" := by
  simp only [csBlock] at h
  split at h
  · simp at h
  · simp only [List.mem_cons] at h
    rcases h with h | h
    · left
      rw [h]
    · exact Or.inr (csItems_mem _ _ _ h)

/-- Claim C3: every document item emitted by the generator derives its
include flag as pricingFilterEnabled implies the negated pricing flag
(and true when the filter is disabled); and concretely, the item_summary
document whose docx content contains the text with a dollar amount gets
pricing_file=true with include=false under the enabled filter and
include=true under the disabled filter. -/
theorem claim_C3_include_rule :
    (∀ (tagMapping : List (String × Option String)) (docsPath : String)
      (noPF useFT : Bool) (fs : List (String × MFile)) (dirListing : List String),
      includeRuleHolds tagMapping docsPath noPF useFT fs dirListing) ∧
    classify_file_type "MAU-12 - Item Summary.docx" = "Item Summary" ∧
    containsSub "$1,234.56".data "Total: $1,234.56".data = true ∧
    ((enhance_tag_mapping c3tm "docs" false true c3fs [] none).pdf_structure.map
        (fun it => (it.ptype, it.pricing_file, it.incl)) =
      [("title_page", none, true), ("document", some true, false)]) ∧
    ((enhance_tag_mapping c3tm "docs" true true c3fs [] none).pdf_structure.map
        (fun it => (it.ptype, it.pricing_file, it.incl)) =
      [("title_page", none, true), ("document", some true, true)]) := by
  refine ⟨?_, by decide, by decide, by decide, by decide⟩
  intro tagMapping docsPath noPF useFT fs dirListing it hmem hdoc
  have hmem2 : it ∈ genTags fs docsPath noPF useFT (buildGroupsTM tagMapping)
        (stableSort tagKeyLe ((buildGroupsTM tagMapping).map (fun g => g.1))) 1 ∨
      it ∈ csBlock docsPath dirListing
        ((genTags fs docsPath noPF useFT (buildGroupsTM tagMapping)
          (stableSort tagKeyLe ((buildGroupsTM tagMapping).map (fun g => g.1))) 1).length + 1) := by
    simpa [enhance_tag_mapping] using hmem
  have hmeta : (enhance_tag_mapping tagMapping docsPath noPF useFT fs dirListing
      none).metadata.pricing_filter_enabled = !noPF := rfl
  rcases hmem2 with h | h
  · rcases genTags_mem _ _ _ _ _ _ _ _ h with h2 | ⟨isPr, hty, hincl, hpf⟩
    · rw [h2] at hdoc
      exact absurd hdoc (by decide)
    · constructor
      · rw [hpf]
        rfl
      · rw [hmeta, hincl, hpf]
        cases noPF <;> cases isPr <;> decide
  · rcases csBlock_mem _ _ _ _ h with h2 | h2 <;> rw [h2] at hdoc <;>
      exact absurd hdoc (by decide)

/-- Witness for claim C3 at the concrete item_summary document of the
example run. -/
theorem claim_C3_witness :
    c3docItem.pricing_file.isSome = true ∧
    c3docItem.incl =
      (if (enhance_tag_mapping c3tm "docs" false true c3fs []
            none).metadata.pricing_filter_enabled
       then !(c3docItem.pricing_file.getD false) else true) :=
  claim_C3_include_rule.1 c3tm "docs" false true c3fs [] c3docItem
    (by
      have h : (enhance_tag_mapping c3tm "docs" false true c3fs [] none).pdf_structure =
          [{ ptype := "title_page", tag := "MAU-12", title := some "MAU-12",
             position := 1, incl := true }, c3docItem] := by decide
      rw [h]
      simp)
    (by decide)

/-- Claim C4 counterexample: a readable docx whose text contains a bare
dollar sign with no digit anywhere is flagged as priced by
has_pricing_content, although the claim requires false for every text
containing a currency symbol not followed by digits. -/
theorem claim_C4_cex :
    has_pricing_content c4fs "docs/Legal Terms.docx" = true ∧
    "Amounts are in US $ unless stated".data.contains '$' = true ∧
    "Amounts are in US $ unless stated".data.all (fun c => !isAsciiDigit c) = true := by
  refine ⟨by decide, by decide, by decide⟩

/-- Claim C4, amended: has_pricing_content flags a readable docx file as
priced exactly when some paragraph or table cell contains the bare
character dollar, digits not required; the currency-amount pattern that
requires digits exists only in the page-level has_dollar_sign scan of the
converter, not here. -/
theorem claim_C4_amended (fs : List (String × MFile)) (path : String) (f : MFile)
    (h1 : fsFind fs path = some f)
    (h2 : lowerStr (osExt (baseNameL path.data)) = ".docx".data)
    (h3 : f.readOk = true) :
    has_pricing_content fs path =
      (f.paragraphs.any (fun p => p.data.contains '$') ||
       f.cellTexts.any (fun cl => cl.data.contains '$')) := by
  simp only [has_pricing_content, h1]
  rw [h2]
  simp [h3]

/-- Witness for the amended claim C4 at the concrete docx file. -/
theorem claim_C4_witness :
    has_pricing_content c4fs "docs/Legal Terms.docx" =
      (c4file.paragraphs.any (fun p => p.data.contains '$') ||
       c4file.cellTexts.any (fun cl => cl.data.contains '$')) :=
  claim_C4_amended c4fs "docs/Legal Terms.docx" c4file (by decide) (by decide) (by decide)

/-- Claim C5: on the four-file input batch, tags resolve as expected, the
processing order puts MAU-5 before AHU-1 with CUTSHEETS last, AHU-1
orders its technical-data document before its fan curve, and the
generated structure is exactly the seven expected items at positions 1
through 7 (2 equipment title pages, 3 documents, 1 cut-sheet title page,
1 cut sheet). -/
theorem claim_C5_scenario :
    (c5files.map extract_tag_from_filename =
      [some "AHU-1", some "AHU-1", some "MAU-5", none]) ∧
    (get_processing_order (extract_tags_from_files c5files (fun _ => true)) =
      ["MAU-5", "AHU-1", "CUTSHEETS"]) ∧
    (((extract_tags_from_files c5files (fun _ => true)).lookup "AHU-1").map
        (fun docs => docs.map (fun e => e.1)) = some ["technical_data", "fan_curve"]) ∧
    (get_document_order_for_equipment ["technical_data", "fan_curve"] =
      ["technical_data", "fan_curve"]) ∧
    ((enhance_tag_mapping c5tm "docs" false true [] c5files none).pdf_structure.map
        (fun it => (it.ptype, it.tag, it.filename, it.position)) =
      [("title_page", "MAU-5", none, 1),
       ("document", "MAU-5", some "MAU-5 - Technical Data Sheet.docx", 2),
       ("title_page", "AHU-1", none, 3),
       ("document", "AHU-1", some "AHU-1 - Technical Data Sheet.docx", 4),
       ("document", "AHU-1", some "AHU-1 - Fan Curve.jpg", 5),
       ("title_page", "CUT SHEETS", none, 6),
       ("cut_sheet", "CUT SHEETS", some "CS_Widget.pdf", 7)]) ∧
    ((enhance_tag_mapping c5tm "docs" false true [] c5files none).metadata.total_items = 7) ∧
    ((enhance_tag_mapping c5tm "docs" false true [] c5files none).metadata.total_tags = 3) ∧
    ((enhance_tag_mapping c5tm "docs" false true [] c5files none).metadata.total_documents = 3) ∧
    ((enhance_tag_mapping c5tm "docs" false true [] c5files none).metadata.total_cut_sheets = 1) := by
  refine ⟨by decide, by decide, by decide, by decide, by decide, by decide, by decide,
    by decide, by decide⟩

/-! ## Stable sort: permutation and sortedness -/
theorem insLe_perm {α : Type} (le : α → α → Bool) (x : α) (l : List α) :
    (insLe le x l).Perm (x :: l) := by
  induction l with
  | nil => exact List.Perm.refl _
  | cons y ys ih =>
    simp only [insLe]
    split
    · exact ((ih.cons y).trans (List.Perm.swap x y ys))
    · exact List.Perm.refl _

theorem stableSortAux_perm {α : Type} (le : α → α → Bool) (l : List α) :
    ∀ acc : List α, (l.foldl (fun acc x => insLe le x acc) acc).Perm (acc ++ l) := by
  induction l with
  | nil => intro acc; simp
  | cons x xs ih =>
    intro acc
    simp only [List.foldl_cons]
    refine (ih (insLe le x acc)).trans ?_
    have h1 : (insLe le x acc ++ xs).Perm ((x :: acc) ++ xs) :=
      (insLe_perm le x acc).append_right xs
    exact h1.trans List.perm_middle.symm

theorem stableSort_perm {α : Type} (le : α → α → Bool) (l : List α) :
    (stableSort le l).Perm l := by
  have h := stableSortAux_perm le l []
  simpa [stableSort] using h

theorem insLe_mem {α : Type} (le : α → α → Bool) (x z : α) (l : List α)
    (h : z ∈ insLe le x l) : z = x ∨ z ∈ l := by
  induction l with
  | nil =>
    simp only [insLe, List.mem_singleton] at h
    exact Or.inl h
  | cons y ys ih =>
    simp only [insLe] at h
    split at h
    · rcases List.mem_cons.mp h with h2 | h2
      · exact Or.inr (by simp [h2])
      · rcases ih h2 with h3 | h3
        · exact Or.inl h3
        · exact Or.inr (by simp [h3])
    · rcases List.mem_cons.mp h with h2 | h2
      · exact Or.inl h2
      · exact Or.inr h2

theorem insLe_pairwise {α : Type} (le : α → α → Bool)
    (htrans : ∀ a b c, le a b = true → le b c = true → le a c = true)
    (htot : ∀ a b, le a b = true ∨ le b a = true) (x : α) (l : List α)
    (h : List.Pairwise (fun a b => le a b = true) l) :
    List.Pairwise (fun a b => le a b = true) (insLe le x l) := by
  induction l with
  | nil => simp [insLe]
  | cons y ys ih =>
    simp only [insLe]
    split
    · rename_i hyx
      rcases List.pairwise_cons.mp h with ⟨hy, hys⟩
      refine List.pairwise_cons.mpr ⟨?_, ih hys⟩
      intro z hz
      rcases insLe_mem le x z ys hz with h2 | h2
      · rw [h2]; exact hyx
      · exact hy z h2
    · rename_i hyx
      have hxy : le x y = true := by
        rcases htot x y with h2 | h2
        · exact h2
        · exact absurd h2 hyx
      refine List.pairwise_cons.mpr ⟨?_, h⟩
      intro z hz
      rcases List.mem_cons.mp hz with h2 | h2
      · rw [h2]; exact hxy
      · rcases List.pairwise_cons.mp h with ⟨hy, _⟩
        exact htrans x y z hxy (hy z h2)

theorem stableSort_pairwise {α : Type} (le : α → α → Bool)
    (htrans : ∀ a b c, le a b = true → le b c = true → le a c = true)
    (htot : ∀ a b, le a b = true ∨ le b a = true) (l : List α) :
    List.Pairwise (fun a b => le a b = true) (stableSort le l) := by
  have haux : ∀ (m acc : List α), List.Pairwise (fun a b => le a b = true) acc →
      List.Pairwise (fun a b => le a b = true)
        (m.foldl (fun acc x => insLe le x acc) acc) := by
    intro m
    induction m with
    | nil => intro acc h; simpa using h
    | cons x xs ih =>
      intro acc h
      simp only [List.foldl_cons]
      exact ih (insLe le x acc) (insLe_pairwise le htrans htot x acc h)
  exact haux l [] (by simp)

theorem chainTo_append (rs : List AppendedRec) :
    ∀ (p0 p : Nat) (r : AppendedRec) (q : Nat), chainTo p0 rs p →
      r.startPage = p → r.endPage + 1 = q → chainTo p0 (rs ++ [r]) q := by
  induction rs with
  | nil =>
    intro p0 p r q h hs he
    subst h
    exact ⟨hs, he⟩
  | cons r2 rs2 ih =>
    intro p0 p r q h hs he
    exact ⟨h.1, ih _ p r q h.2 hs he⟩

theorem bmRecAligned_append (bms : List BMark) (recs : List AppendedRec)
    (bm : BMark) (r : AppendedRec) (h : bmRecAligned bms recs)
    (h1 : bm.page = r.startPage)
    (h2 : bm.fromTitlePage = decide (r.itm.ptype = "title_page"))
    (h3 : r.itm.ptype ≠ "title_page" →
      r.itm.ptype = "document" ∨ r.itm.ptype = "cut_sheet") :
    bmRecAligned (bms ++ [bm]) (recs ++ [r]) := by
  obtain ⟨hlen, hal⟩ := h
  refine ⟨by simp [hlen], ?_⟩
  intro j hj hj2
  simp only [List.length_append, List.length_cons, List.length_nil] at hj hj2
  by_cases hjl : j < bms.length
  · rw [List.getElem_append_left hjl, List.getElem_append_left (by omega)]
    exact hal j hjl (by omega)
  · have hje : j = bms.length := by omega
    rw [List.getElem_concat_length _ _ _ hje, List.getElem_concat_length _ _ _ (by omega)]
    exact ⟨h1, h2, h3⟩

theorem parentSpec_elem_append (bms : List BMark) (bm : BMark) (i : Nat)
    (hi : i < bms.length) (hi2 : i < (bms ++ [bm]).length) :
    (bms ++ [bm])[i] = bms[i] :=
  List.getElem_append_left hi

theorem parentSpec_append_title (bms : List BMark) (bm : BMark)
    (hbm : bm.fromTitlePage = true) (hbp : bm.parent = none)
    (hps : parentSpec bms) : parentSpec (bms ++ [bm]) := by
  intro j hj
  simp only [List.length_append, List.length_cons, List.length_nil] at hj
  by_cases hjl : j < bms.length
  · obtain ⟨hA, hB⟩ := hps j hjl
    rw [parentSpec_elem_append bms bm j hjl (by simp; omega)]
    refine ⟨hA, ?_⟩
    intro hf
    obtain ⟨hB1, hB2⟩ := hB hf
    constructor
    · intro p hp
      obtain ⟨hplt, hpj, hpt, hall⟩ := hB1 p hp
      refine ⟨by simp; omega, hpj, ?_, ?_⟩
      · rw [parentSpec_elem_append bms bm p hplt (by simp; omega)]
        exact hpt
      · intro i hi hpi hij
        have hil : i < bms.length := by omega
        rw [parentSpec_elem_append bms bm i hil (by simp; omega)]
        exact hall i hil hpi hij
    · intro hp i hi hij
      have hil : i < bms.length := by omega
      rw [parentSpec_elem_append bms bm i hil (by simp; omega)]
      exact hB2 hp i hil hij
  · have hje : j = bms.length := by omega
    rw [List.getElem_concat_length _ _ _ hje]
    refine ⟨fun _ => hbp, fun hf => absurd hbm (by rw [hf]; decide)⟩

theorem parentSpec_append_doc (bms : List BMark) (bm : BMark)
    (hbm : bm.fromTitlePage = false)
    (hnone : bm.parent = none →
      ∀ i (h : i < bms.length), bms[i].fromTitlePage = false)
    (hsome : ∀ p, bm.parent = some p → ∃ hp : p < bms.length,
      bms[p].fromTitlePage = true ∧
      ∀ i (h : i < bms.length), p < i → bms[i].fromTitlePage = false)
    (hps : parentSpec bms) : parentSpec (bms ++ [bm]) := by
  intro j hj
  simp only [List.length_append, List.length_cons, List.length_nil] at hj
  by_cases hjl : j < bms.length
  · obtain ⟨hA, hB⟩ := hps j hjl
    rw [parentSpec_elem_append bms bm j hjl (by simp; omega)]
    refine ⟨hA, ?_⟩
    intro hf
    obtain ⟨hB1, hB2⟩ := hB hf
    constructor
    · intro p hp
      obtain ⟨hplt, hpj, hpt, hall⟩ := hB1 p hp
      refine ⟨by simp; omega, hpj, ?_, ?_⟩
      · rw [parentSpec_elem_append bms bm p hplt (by simp; omega)]
        exact hpt
      · intro i hi hpi hij
        have hil : i < bms.length := by omega
        rw [parentSpec_elem_append bms bm i hil (by simp; omega)]
        exact hall i hil hpi hij
    · intro hp i hi hij
      have hil : i < bms.length := by omega
      rw [parentSpec_elem_append bms bm i hil (by simp; omega)]
      exact hB2 hp i hil hij
  · have hje : j = bms.length := by omega
    rw [List.getElem_concat_length _ _ _ hje]
    refine ⟨fun ht => absurd hbm (by rw [ht]; decide), ?_⟩
    intro _
    constructor
    · intro p hp
      obtain ⟨hplt, hpt, hall⟩ := hsome p hp
      refine ⟨by simp; omega, by omega, ?_, ?_⟩
      · rw [parentSpec_elem_append bms bm p hplt (by simp; omega)]
        exact hpt
      · intro i hi hpi hij
        have hil : i < bms.length := by omega
        rw [parentSpec_elem_append bms bm i hil (by simp; omega)]
        exact hall i hil hpi
    · intro hp i hi hij
      have hil : i < bms.length := by omega
      rw [parentSpec_elem_append bms bm i hil (by simp; omega)]
      exact hnone hp i hil

theorem curOk_append_title (bms : List BMark) (bm : BMark)
    (hbm : bm.fromTitlePage = true) :
    curOk (some bms.length) (bms ++ [bm]) := by
  constructor
  · intro h
    simp at h
  · intro p hp
    have hpe : p = bms.length := by
      injection hp with hp2
      omega
    subst hpe
    refine ⟨by simp, ?_, ?_⟩
    · rw [List.getElem_concat_length _ _ _ rfl]
      exact hbm
    · intro i hi hpi
      simp only [List.length_append, List.length_cons, List.length_nil] at hi
      omega

theorem curOk_append_doc (cur : Option Nat) (bms : List BMark) (bm : BMark)
    (hbm : bm.fromTitlePage = false) (h : curOk cur bms) :
    curOk cur (bms ++ [bm]) := by
  obtain ⟨hn, hs⟩ := h
  constructor
  · intro hc i hi
    simp only [List.length_append, List.length_cons, List.length_nil] at hi
    by_cases hil : i < bms.length
    · rw [parentSpec_elem_append bms bm i hil (by simp; omega)]
      exact hn hc i hil
    · have hie : i = bms.length := by omega
      rw [List.getElem_concat_length _ _ _ hie]
      exact hbm
  · intro p hp
    obtain ⟨hplt, hpt, hall⟩ := hs p hp
    refine ⟨by simp; omega, ?_, ?_⟩
    · rw [parentSpec_elem_append bms bm p hplt (by simp; omega)]
      exact hpt
    · intro i hi hpi
      simp only [List.length_append, List.length_cons, List.length_nil] at hi
      by_cases hil : i < bms.length
      · rw [parentSpec_elem_append bms bm i hil (by simp; omega)]
        exact hall i hil hpi
      · have hie : i = bms.length := by omega
        rw [List.getElem_concat_length _ _ _ hie]
        exact hbm

theorem asmStep_inv (env : AsmEnv) (henv : envPagesPos env) (st : AsmState)
    (it : PDFItem) (h : asmInv st) : asmInv (asmStep env st it) := by
  obtain ⟨halign, hchain, hps, hcur⟩ := h
  unfold asmStep
  by_cases hty : it.ptype = "title_page"
  · rw [if_pos hty]
    cases hgen : env.titlePages it.tag (it.title.getD it.tag) with
    | none => exact ⟨halign, hchain, hps, hcur⟩
    | some n =>
      have hn : 1 ≤ n := henv.1 _ _ _ hgen
      refine ⟨?_, ?_, ?_, ?_⟩
      · exact bmRecAligned_append st.bms st.recs _ _ halign rfl
          (by simp [hty]) (fun hne => absurd hty hne)
      · exact chainTo_append st.recs 0 st.pages _ (st.pages + n) hchain rfl
          (by show st.pages + n - 1 + 1 = st.pages + n; omega)
      · exact parentSpec_append_title st.bms _ rfl rfl hps
      · exact curOk_append_title st.bms _ rfl
  · rw [if_neg hty]
    by_cases hty2 : it.ptype = "document" ∨ it.ptype = "cut_sheet"
    · rw [if_pos hty2]
      cases hgen : env.docPages it with
      | none => exact ⟨halign, hchain, hps, hcur⟩
      | some n =>
        have hn : 1 ≤ n := henv.2 _ _ hgen
        refine ⟨?_, ?_, ?_, ?_⟩
        · exact bmRecAligned_append st.bms st.recs _ _ halign rfl
            (by simp [hty]) (fun _ => hty2)
        · exact chainTo_append st.recs 0 st.pages _ (st.pages + n) hchain rfl
            (by show st.pages + n - 1 + 1 = st.pages + n; omega)
        · exact parentSpec_append_doc st.bms _ rfl
            (fun hcp => hcur.1 hcp) (fun p hp => hcur.2 p hp) hps
        · exact curOk_append_doc st.curParent st.bms _ rfl hcur
    · rw [if_neg hty2]
      exact ⟨halign, hchain, hps, hcur⟩

theorem runAsm_inv (env : AsmEnv) (henv : envPagesPos env) :
    ∀ (L : List PDFItem) (st : AsmState), asmInv st → asmInv (runAsm env st L) := by
  intro L
  induction L with
  | nil => intro st h; exact h
  | cons it rest ih =>
    intro st h
    exact ih (asmStep env st it) (asmStep_inv env henv st it h)

theorem asmInv_init : asmInv {} := by
  refine ⟨⟨rfl, ?_⟩, rfl, ?_, ?_, ?_⟩
  · intro j hj _
    simp at hj
  · intro j hj
    simp at hj
  · intro _ i hi
    simp at hi
  · intro p hp
    simp at hp

theorem asmStep_recs (env : AsmEnv) (st : AsmState) (it : PDFItem) :
    (asmStep env st it).recs = st.recs ∨
    ∃ r : AppendedRec, (asmStep env st it).recs = st.recs ++ [r] ∧ r.itm = it := by
  unfold asmStep
  by_cases hty : it.ptype = "title_page"
  · rw [if_pos hty]
    cases env.titlePages it.tag (it.title.getD it.tag) with
    | none => exact Or.inl rfl
    | some n => exact Or.inr ⟨_, rfl, rfl⟩
  · rw [if_neg hty]
    by_cases hty2 : it.ptype = "document" ∨ it.ptype = "cut_sheet"
    · rw [if_pos hty2]
      cases env.docPages it with
      | none => exact Or.inl rfl
      | some n => exact Or.inr ⟨_, rfl, rfl⟩
    · rw [if_neg hty2]
      exact Or.inl rfl

theorem runAsm_recs_sublist (env : AsmEnv) :
    ∀ (L : List PDFItem) (st : AsmState),
      ∃ s : List AppendedRec, (runAsm env st L).recs = st.recs ++ s ∧
        (s.map (fun r => r.itm)).Sublist L := by
  intro L
  induction L with
  | nil =>
    intro st
    exact ⟨[], by simp [runAsm], List.Sublist.refl _⟩
  | cons it rest ih =>
    intro st
    obtain ⟨s2, hs2, hsub⟩ := ih (asmStep env st it)
    rcases asmStep_recs env st it with hr | ⟨r, hr, hri⟩
    · refine ⟨s2, ?_, hsub.cons it⟩
      show (runAsm env (asmStep env st it) rest).recs = _
      rw [hs2, hr]
    · refine ⟨r :: s2, ?_, ?_⟩
      · show (runAsm env (asmStep env st it) rest).recs = _
        rw [hs2, hr]
        simp
      · simp only [List.map_cons, hri]
        exact hsub.cons₂ it

/-- Claim C6: create_final_pdf walks exactly the include=true items of
the structure in ascending position order (the walked list is a sorted
permutation of the included items and every successful append consumes
them in that order); the recorded page ranges are contiguous from page 0;
every title-page append opens a top-level bookmark at its recorded
0-indexed start page; and every document or cut-sheet append becomes a
child of the latest preceding title-page bookmark at its own recorded
start page. -/
theorem claim_C6_assembly (env : AsmEnv) (items : List PDFItem)
    (henv : envPagesPos env) : asmBookmarkSpec env items := by
  have hperm : (includedSorted items).Perm (items.filter (fun it => it.incl)) :=
    stableSort_perm _ _
  have hpair : List.Pairwise
      (fun a b : PDFItem => a.position ≤ b.position) (includedSorted items) := by
    have h := stableSort_pairwise (fun a b : PDFItem => decide (a.position ≤ b.position))
      (fun a b c hab hbc => by
        simp only [decide_eq_true_eq] at hab hbc ⊢
        omega)
      (fun a b => by
        by_cases h : a.position ≤ b.position
        · exact Or.inl (by simpa using h)
        · exact Or.inr (by simp; omega))
      (items.filter (fun it => it.incl))
    exact h.imp (fun hab => by simpa using hab)
  have hincl : ∀ it ∈ includedSorted items, it.incl = true := by
    intro it hmem
    have h2 : it ∈ items.filter (fun it => it.incl) := hperm.mem_iff.mp hmem
    exact (List.mem_filter.mp h2).2
  have hinv : asmInv (create_final_pdf env items) :=
    runAsm_inv env henv (includedSorted items) {} asmInv_init
  obtain ⟨s, hs, hsub⟩ := runAsm_recs_sublist env (includedSorted items) {}
  refine ⟨hperm, hpair, hincl, ?_, hinv.1, hinv.2.1, hinv.2.2.1⟩
  show ((runAsm env {} (includedSorted items)).recs.map (fun r => r.itm)).Sublist _
  rw [hs]
  simpa using hsub

/-- Witness for claim C6 at a concrete environment and structure. -/
theorem claim_C6_witness : asmBookmarkSpec c6env c6items :=
  claim_C6_assembly c6env c6items
    ⟨fun _ _ n h => by
        injection h with h2
        omega,
     fun _ n h => by
        injection h with h2
        omega⟩

/-- Claim C7 counterexample: the classifier returns spreadsheet for an
unmatched xls file, a value outside the declared enumeration. -/
theorem claim_C7_cex :
    classify_document_type "Budget.xls" = "spreadsheet" ∧
    declaredDocCategories.contains "spreadsheet" = false := by
  refine ⟨by decide, by decide⟩

/-- Claim C7, amended: the classifier is a total function of the
filename whose result always lies in the declared enumeration extended
with spreadsheet, and the extra value spreadsheet only arises for
filenames with an unmatched .xls or .xlsx suffix. -/
theorem claim_C7_amended (filename : String) :
    classify_document_type filename ∈ allowedDocCategories ∧
    (classify_document_type filename = "spreadsheet" →
      lowerStr (pySuffix filename.data) = ".xls".data ∨
      lowerStr (pySuffix filename.data) = ".xlsx".data) := by
  unfold classify_document_type
  cases hfind : classifyKeyword (classifyBase filename)
      (classifyDocPart (classifyBase filename)) with
  | some t =>
    obtain ⟨e, he, hfe⟩ := List.exists_of_findSome?_eq_some hfind
    have ht : t = e.1 := by
      by_cases hc : (e.2.any (fun pr =>
          if pr.1 then matchPatStart pr.2 (if e.1 = "cutsheet" then classifyBase filename
            else classifyDocPart (classifyBase filename))
          else searchPat pr.2 (if e.1 = "cutsheet" then classifyBase filename
            else classifyDocPart (classifyBase filename)))) = true
      · simp only [hc, if_pos] at hfe
        exact (Option.some.injEq _ _ ▸ hfe).symm
      · simp only [hc] at hfe
        simp at hfe
    have hkeys : e.1 ∈ docTypeTable.map Prod.fst := List.mem_map_of_mem Prod.fst he
    have hkeyList : docTypeTable.map Prod.fst =
        ["technical_data", "item_summary", "fan_curve", "drawing", "specification",
         "cutsheet", "manual", "warranty"] := rfl
    rw [hkeyList] at hkeys
    subst ht
    refine ⟨?_, ?_⟩
    · show e.1 ∈ allowedDocCategories
      have hsubl : ∀ x ∈ ["technical_data", "item_summary", "fan_curve", "drawing",
          "specification", "cutsheet", "manual", "warranty"],
          x ∈ allowedDocCategories := by decide
      exact hsubl _ hkeys
    · intro hsp
      have hsp2 : e.1 = "spreadsheet" := hsp
      rw [hsp2] at hkeys
      exact absurd hkeys (by decide)
  | none =>
    refine ⟨?_, ?_⟩
    · show classifyDefault filename ∈ allowedDocCategories
      simp only [classifyDefault]
      split
      · decide
      · split
        · decide
        · split
          · decide
          · decide
    · intro hsp
      have hsp2 : classifyDefault filename = "spreadsheet" := hsp
      simp only [classifyDefault] at hsp2
      split at hsp2
      · exact absurd hsp2 (by decide)
      · split at hsp2
        · exact absurd hsp2 (by decide)
        · split at hsp2
          · rename_i hcond
            exact hcond
          · exact absurd hsp2 (by decide)

/-- Witness for the amended claim C7 at the concrete xls filename. -/
theorem claim_C7_witness :
    classify_document_type "Budget.xls" ∈ allowedDocCategories ∧
    (lowerStr (pySuffix "Budget.xls".data) = ".xls".data ∨
     lowerStr (pySuffix "Budget.xls".data) = ".xlsx".data) :=
  ⟨(claim_C7_amended "Budget.xls").1, (claim_C7_amended "Budget.xls").2 (by decide)⟩

/-! ## Claims C8, C9, C10: tag extraction details -/
theorem extract_cs_stem_none (fn : String)
    (h : startsWithCI "CS".data (pyStem fn.data) = true) :
    extract_tag_from_filename fn = none := by
  simp [extract_tag_from_filename, h]

/-- Claim C8 counterexample: the filename-mode resolver of
SimpleTagExtractor uppercases the raw match and keeps the underscore
separator and leading zeros, so ahu_01 resolves to AHU_01 and not to the
claimed normalized AHU-1. -/
theorem claim_C8_cex :
    extract_tag_from_filename "ahu_01.docx" = some "AHU_01" ∧
    ("AHU_01" : String) ≠ "AHU-1" := by
  refine ⟨by decide, by decide⟩

/-- Claim C8, amended: the first matching pattern in the ordered list
wins (OAHU is tried before AHU, so any filename whose stem matches the
OAHU pattern resolves to that match), and the result is the raw match
uppercased with its separator and leading zeros preserved (ahu_01
resolves to AHU_01); normalization to a hyphenated PREFIX-SUFFIX with
leading zeros stripped happens only in the pipeline-stage resolver
(normalize_tag maps AHU-01 to AHU-1 and ahu 07 to AHU-7), which does not
rewrite underscore-separated tags. -/
theorem claim_C8_amended :
    (∀ (fn : String) (m : List Char),
      startsWithCI "CS".data (pyStem fn.data) = false →
      searchTag "OAHU".data (pyStem fn.data) = some m →
      extract_tag_from_filename fn = some (String.mk (upperStr m))) ∧
    extract_tag_from_filename "ahu_01.docx" = some "AHU_01" ∧
    normalize_tag "AHU-01" = "AHU-1" ∧
    normalize_tag "ahu 07" = "AHU-7" ∧
    normalize_tag "AHU_01" = "AHU_01" := by
  refine ⟨?_, by decide, by decide, by decide, by decide⟩
  intro fn m hcs hm
  simp [extract_tag_from_filename, hcs, tagPrefixList, firstTagMatch, hm]

/-- Witness for the amended claim C8: a filename matched by the OAHU
pattern resolves to the uppercased OAHU match even though the AHU
pattern also matches inside it. -/
theorem claim_C8_witness :
    extract_tag_from_filename "OAHU-3 - Spec.pdf" =
      some (String.mk (upperStr "OAHU-3".data)) :=
  claim_C8_amended.1 "OAHU-3 - Spec.pdf" "OAHU-3".data (by decide) (by decide)

/-- Claim C9 counterexample: a filename classified cutsheet whose stem
does not begin with CS still receives a tag; the cut-sheet guard in the
resolver tests only the CS stem, never the classification. -/
theorem claim_C9_cex :
    classify_document_type "AHU-1 - Cut Sheet.pdf" = "cutsheet" ∧
    extract_tag_from_filename "AHU-1 - Cut Sheet.pdf" = some "AHU-1" := by
  refine ⟨by decide, by decide⟩

/-- Claim C9, amended: only filenames whose stem begins with CS (any
case) are denied a tag; the classification is not consulted, so a
cutsheet-classified file such as AHU-1 - Cut Sheet.pdf still receives
tag AHU-1 and is grouped under that equipment tag rather than under the
CUTSHEETS catch-all. -/
theorem claim_C9_amended :
    (∀ fn : String, startsWithCI "CS".data (pyStem fn.data) = true →
      extract_tag_from_filename fn = none) ∧
    classify_document_type "AHU-1 - Cut Sheet.pdf" = "cutsheet" ∧
    extract_tag_from_filename "AHU-1 - Cut Sheet.pdf" = some "AHU-1" ∧
    extract_tags_from_files ["AHU-1 - Cut Sheet.pdf"] (fun _ => true) =
      [("AHU-1", [("cutsheet", ["AHU-1 - Cut Sheet.pdf"])])] := by
  refine ⟨extract_cs_stem_none, by decide, by decide, by decide⟩

/-- Witness for the amended claim C9 at a CS-prefixed filename. -/
theorem claim_C9_witness :
    extract_tag_from_filename "CS_Widget.pdf" = none :=
  claim_C9_amended.1 "CS_Widget.pdf" (by decide)

/-- Claim C10: every filename whose extension-stripped stem begins with
CS in any letter case receives no tag, before any pattern is tried;
CSU-5 - Drawing.pdf is classified drawing yet gets no tag, and such a
file lands in no equipment group and not in CUTSHEETS either. -/
theorem claim_C10_cs_guard :
    (∀ fn : String, startsWithCI "CS".data (pyStem fn.data) = true →
      extract_tag_from_filename fn = none) ∧
    classify_document_type "CSU-5 - Drawing.pdf" = "drawing" ∧
    extract_tag_from_filename "CSU-5 - Drawing.pdf" = none ∧
    extract_tags_from_files ["AHU-1 - Drawing.pdf", "CSU-5 - Drawing.pdf"]
        (fun _ => true) =
      [("AHU-1", [("drawing", ["AHU-1 - Drawing.pdf"])])] := by
  refine ⟨extract_cs_stem_none, by decide, by decide, by decide⟩

/-- Witness for claim C10 at the concrete mixed-case CS stem. -/
theorem claim_C10_witness :
    extract_tag_from_filename "csU-9 - Fan Curve.jpg" = none :=
  claim_C10_cs_guard.1 "csU-9 - Fan Curve.jpg" (by decide)
